import Mathlib

/-!
CSV import pipeline: record building, streaming, batching, row projection.

A shallow embedding of `services/csvProcessor.js`, `services/dataImporter.js` and
`services/db.js`, followed by theorems about them.

Conventions of the embedding.

* A JavaScript value is a `JVal`.  A plain object is the list of its own properties in
  insertion order; two equal lists are equal objects (the converse is not used).
* A number is identified by its canonical rendering (`String(n)` in the source language);
  the built-in `Number` conversion is a parameter `toNumber` of every function that uses
  it, so that the theorems hold for whatever that conversion does.
* The modules are CommonJS, non-strict: an assignment to a property of a primitive does
  nothing.
* A computation returns a `Res`: a value, a thrown error, `Res.host` when the run reads
  through or writes into an object that belongs to the runtime and not to the record
  (`Object.prototype`, or a method a value inherits from a prototype), or `Res.pending`
  when an awaited promise never settles.  The pure functions stop at `Res.host`; the
  line loop hands such a run to a parameter `runtime`, which says what record the run
  returns or what error it throws, so that the theorems on the loop hold for whatever
  the runtime does there.
* Stateful code passes its state explicitly and returns it together with the error it
  threw, if any.
-/

namespace Kelp

/-! ## Values -/

/-- An `Error` object of the runtime: its `name` and its `message`. -/
structure JsError where
  name : String
  message : String
  deriving DecidableEq

/-- A number of the source language, identified by its canonical rendering. -/
structure JNum where
  repr : String
  deriving DecidableEq

/-- The values the pipeline handles. -/
inductive JVal where
  | undefined
  | null
  | str (s : String)
  | num (n : JNum)
  | obj (fields : List (String × JVal))

/-- Result of a computation: a value, a thrown error, a run that leaves the record for an
object of the runtime, or an awaited promise that never settles. -/
inductive Res (α : Type) where
  | ok (a : α)
  | throw (e : JsError)
  | host
  | pending

/-- Sequencing of computations. -/
def Res.bind {α β : Type} : Res α → (α → Res β) → Res β
  | Res.ok a, f => f a
  | Res.throw e, _ => Res.throw e
  | Res.host, _ => Res.host
  | Res.pending, _ => Res.pending

/-- Whether a computation returns or throws: it neither leaves the record nor stays
pending. -/
def Res.settles {α : Type} : Res α → Bool
  | Res.ok _ => true
  | Res.throw _ => true
  | Res.host => false
  | Res.pending => false

/-- The `TypeError` of the engine for a property read on `undefined` or `null`. -/
def readTypeError (base key : String) : JsError :=
  ⟨"TypeError", "Cannot read properties of " ++ base ++ " (reading '" ++ key ++ "')"⟩

/-- The `TypeError` of the engine for a property write on `undefined` or `null`. -/
def writeTypeError (base key : String) : JsError :=
  ⟨"TypeError", "Cannot set properties of " ++ base ++ " (setting '" ++ key ++ "')"⟩

/-- Property names every plain object inherits from `Object.prototype`. -/
def objectProtoKeys : List String :=
  ["constructor", "__defineGetter__", "__defineSetter__", "hasOwnProperty",
   "__lookupGetter__", "__lookupSetter__", "isPrototypeOf", "propertyIsEnumerable",
   "toString", "valueOf", "__proto__", "toLocaleString"]

/-- Property names a number primitive inherits from `Number.prototype` and
`Object.prototype`. -/
def numberProtoKeys : List String :=
  objectProtoKeys ++ ["toExponential", "toFixed", "toPrecision"]

/-- Property names a string primitive inherits from `String.prototype` and
`Object.prototype`; the list holds every name any edition of the language defines there. -/
def stringProtoKeys : List String :=
  objectProtoKeys ++
    ["anchor", "at", "big", "blink", "bold", "charAt", "charCodeAt", "codePointAt", "concat",
     "endsWith", "fixed", "fontcolor", "fontsize", "includes", "indexOf", "isWellFormed",
     "italics", "lastIndexOf", "link", "localeCompare", "match", "matchAll", "normalize",
     "padEnd", "padStart", "repeat", "replace", "replaceAll", "search", "slice", "small",
     "split", "strike", "sub", "substr", "substring", "startsWith", "sup",
     "toLocaleLowerCase", "toLocaleUpperCase", "toLowerCase", "toUpperCase", "toWellFormed",
     "trim", "trimEnd", "trimLeft", "trimRight", "trimStart"]

/-- The UTF-16 code units of a string: a character of the basic plane is one unit, any other
character is two surrogate halves, which no string of this model can hold on their own. -/
def utf16Units (s : String) : List (Option Char) :=
  s.toList.flatMap fun c => if c.toNat < 65536 then [some c] else [none, none]

/-- The array index a property name spells, if it is the canonical decimal of one. -/
def canonicalIndex (key : String) : Option Nat :=
  let cs := key.toList
  if cs ≠ [] ∧ cs.all Char.isDigit ∧ (cs.head? ≠ some '0' ∨ cs = ['0'])
  then some (cs.foldl (fun n c => 10 * n + (c.toNat - 48)) 0) else none

/-- The read `s[key]` on a string primitive: an inherited method is an object of the runtime,
`length` counts code units, an index in range gives the one-unit string there, and any other
name is absent. -/
def getStringProp (s : String) (key : String) : Res JVal :=
  if key ∈ stringProtoKeys then Res.host
  else if key = "length" then Res.ok (JVal.num ⟨toString (utf16Units s).length⟩)
  else
    match canonicalIndex key with
    | none => Res.ok JVal.undefined
    | some i =>
      match (utf16Units s)[i]? with
      | none => Res.ok JVal.undefined
      | some (some c) => Res.ok (JVal.str (String.singleton c))
      | some none => Res.host

/-- Own property `key` of a property list, if present. -/
def findField : List (String × JVal) → String → Option JVal
  | [], _ => none
  | (k, v) :: rest, key => if k = key then some v else findField rest key

/-- Define or overwrite own property `key`, keeping the position of an existing key. -/
def upsert : List (String × JVal) → String → JVal → List (String × JVal)
  | [], key, v => [(key, v)]
  | (k, w) :: rest, key, v => if k = key then (k, v) :: rest else (k, w) :: upsert rest key v

/-- Truthiness, as tested by `!x`. -/
def truthy : JVal → Bool
  | JVal.undefined => false
  | JVal.null => false
  | JVal.str s => s ≠ ""
  | JVal.num n => n.repr ≠ "0" ∧ n.repr ≠ "NaN"
  | JVal.obj _ => true

/-- The read `current[key]`. -/
def getProp : JVal → String → Res JVal
  | JVal.undefined, key => Res.throw (readTypeError "undefined" key)
  | JVal.null, key => Res.throw (readTypeError "null" key)
  | JVal.str s, key => getStringProp s key
  | JVal.num _, key => if key ∈ numberProtoKeys then Res.host else Res.ok JVal.undefined
  | JVal.obj fields, key =>
    match findField fields key with
    | some v => Res.ok v
    | none => if key ∈ objectProtoKeys then Res.host else Res.ok JVal.undefined

/-- The write `current[key] = value`; returns `current` after the write. -/
def setProp : JVal → String → JVal → Res JVal
  | JVal.undefined, key, _ => Res.throw (writeTypeError "undefined" key)
  | JVal.null, key, _ => Res.throw (writeTypeError "null" key)
  | JVal.str s, _, _ => Res.ok (JVal.str s)
  | JVal.num n, _, _ => Res.ok (JVal.num n)
  | JVal.obj fields, key, v =>
    if key = "__proto__" ∧ (findField fields key).isNone then
      -- the inherited setter: ignores a primitive, re-parents the object otherwise
      match v with
      | JVal.obj _ => Res.host
      | JVal.null => Res.host
      | _ => Res.ok (JVal.obj fields)
    else Res.ok (JVal.obj (upsert fields key v))

/-- After the object reached through `current[key]` has been mutated into `child`, the
value of `current`. A primitive has no own property to update. -/
def storeBack : JVal → String → JVal → JVal
  | JVal.obj fields, key, child =>
    match findField fields key with
    | some _ => JVal.obj (upsert fields key child)
    | none => JVal.obj fields
  | cur, _, _ => cur

/-! ## `services/csvProcessor.js` -/

/-- `setNestedProperty(obj, pathArray, value)`; returns `obj` after the call. An empty
`pathArray` makes the last key `pathArray[-1]`, the property name `"undefined"`. -/
def setNestedProperty : JVal → List String → JVal → Res JVal
  | cur, [], value => setProp cur "undefined" value
  | cur, [key], value => setProp cur key value
  | cur, key :: key2 :: rest, value =>
    (getProp cur key).bind fun c =>
    (if truthy c then Res.ok cur else setProp cur key (JVal.obj [])).bind fun cur1 =>
    (getProp cur1 key).bind fun child =>
    (setNestedProperty child (key2 :: rest) value).bind fun child1 =>
    Res.ok (storeBack cur1 key child1)

/-- Cells of `cs` separated by `sep`; always at least one cell. -/
def splitChars (sep : Char) : List Char → List (List Char)
  | [] => [[]]
  | c :: cs =>
    if c = sep then [] :: splitChars sep cs
    else
      match splitChars sep cs with
      | [] => [[c]]
      | w :: ws => (c :: w) :: ws

/-- `s.split(sep)` for a one-character separator. -/
def split (s : String) (sep : Char) : List String :=
  (splitChars sep s.toList).map String.mk

/-- The typed value of a cell: `isNumeric ? Number(rawValue) : rawValue`, where `isNumeric`
is `rawValue !== '' && !isNaN(Number(rawValue))`. -/
def cellValue (toNumber : String → JNum) (rawValue : String) : JVal :=
  if rawValue ≠ "" ∧ (toNumber rawValue).repr ≠ "NaN" then JVal.num (toNumber rawValue)
  else JVal.str rawValue

/-- The loop of `buildNestedObject` from column `i` on: `headers` and `values` are the
columns that remain. A missing `values[i]` reads as `undefined`, which is not numeric. -/
def buildLoop (toNumber : String → JNum) : JVal → List String → List String → Res JVal
  | jsonObject, [], _ => Res.ok jsonObject
  | jsonObject, header :: headers, values =>
    let pathArray := split header '.'
    let value : JVal :=
      match values with
      | [] => JVal.undefined
      | rawValue :: _ => cellValue toNumber rawValue
    (setNestedProperty jsonObject pathArray value).bind fun o =>
    buildLoop toNumber o headers values.tail

/-- `buildNestedObject(headers, values)`. -/
def buildNestedObject (toNumber : String → JNum) (headers values : List String) : Res JVal :=
  buildLoop toNumber (JVal.obj []) headers values


/-- What the runtime makes of a call `buildNestedObject(headers, data)` whose run leaves the
record: the record the call returns, or the error it throws. The third argument is the
number of lines still to be read after this one, which in a given file fixes the state the
runtime's own objects are in at that call. -/
abbrev Runtime := List String → List String → Nat → Except JsError JVal

/-- The call `buildNestedObject(headers, data)` inside the line loop: a run that leaves the
record is settled by the runtime. -/
def buildInLoop (toNumber : String → JNum) (runtime : Runtime) (headers data : List String)
    (remaining : Nat) : Res JVal :=
  match buildNestedObject toNumber headers data with
  | Res.host =>
    match runtime headers data remaining with
    | Except.ok jsonObject => Res.ok jsonObject
    | Except.error e => Res.throw e
  | r => r

/-- The run of `for await (const line of rl)`: `headers` and `isFirstLine` are the loop's
variables, `s` the state the handler works on. A line is delivered only after the handler
has returned for the line before it. -/
def processLoop {σ : Type} (toNumber : String → JNum) (runtime : Runtime)
    (onData : JVal → σ → σ × Res Unit) :
    List String → List String → Bool → σ → σ × Res Unit
  | [], _, _, s => (s, Res.ok ())
  | line :: rest, headers, isFirstLine, s =>
    if isFirstLine then processLoop toNumber runtime onData rest (split line ',') false s
    else
      let data := split line ','
      if data.length ≠ headers.length then
        processLoop toNumber runtime onData rest headers false s
      else
        match buildInLoop toNumber runtime headers data rest.length with
        | Res.ok jsonObject =>
          match onData jsonObject s with
          | (s1, Res.ok _) => processLoop toNumber runtime onData rest headers false s1
          | (s1, Res.throw e) => (s1, Res.throw e)
          | (s1, Res.host) => (s1, Res.host)
          | (s1, Res.pending) => (s1, Res.pending)
        | Res.throw e => (s, Res.throw e)
        | Res.host => (s, Res.host)
        | Res.pending => (s, Res.pending)

/-- The file at the configured path as the line reader presents it: the lines it yields,
and the error the file stream emits, if it emits one. -/
structure CsvFile where
  lines : List String
  failure : Option JsError

/-- `processCSV(onData)`: resolves (`Res.ok`), rejects (`Res.throw`) or stays pending.
`filePath` is `config.csv.filePath`, which is `undefined` (`none`) when the environment
does not set `CSV_FILE_PATH`: then `path.resolve` throws inside the `async` executor,
before the `try`, so neither `resolve` nor `reject` is ever called. -/
def processCSV {σ : Type} (toNumber : String → JNum) (runtime : Runtime)
    (filePath : Option String) (file : CsvFile) (onData : JVal → σ → σ × Res Unit) (s : σ) :
    σ × Res Unit :=
  match filePath with
  | none => (s, Res.pending)
  | some _ =>
    match processLoop toNumber runtime onData file.lines [] true s with
    | (s1, Res.ok _) =>
      match file.failure with
      | none => (s1, Res.ok ())
      | some err => (s1, Res.throw err)
    | (s1, Res.throw e) => (s1, Res.throw e)
    | (s1, Res.host) => (s1, Res.host)
    | (s1, Res.pending) => (s1, Res.pending)

/-! ## `services/db.js` -/

/-- The row `transformForDb` returns. -/
structure Row where
  name : String
  age : JVal
  address : JVal
  additional_info : JVal

/-- The `TypeError` of the engine for an object that has no primitive rendering. -/
def toPrimitiveTypeError : JsError :=
  ⟨"TypeError", "Cannot convert object to primitive value"⟩

/-- The text a value contributes to a template literal. A plain object renders through the
inherited `toString`, unless an own property of that name (never callable here) hides it. -/
def toStr : JVal → Res String
  | JVal.undefined => Res.ok "undefined"
  | JVal.null => Res.ok "null"
  | JVal.str s => Res.ok s
  | JVal.num n => Res.ok n.repr
  | JVal.obj fields =>
    match findField fields "toString" with
    | none => Res.ok "[object Object]"
    | some _ => Res.throw toPrimitiveTypeError

/-- The own properties `{ ...x }` copies. -/
def ownFields : JVal → List (String × JVal)
  | JVal.obj fields => fields
  | _ => []

/-- The statement `delete o[key]` on a property list. -/
def deleteKey (fields : List (String × JVal)) (key : String) : List (String × JVal) :=
  fields.filter fun kv => decide (kv.1 ≠ key)

/-- `transformForDb(rawJson)`. -/
def transformForDb (rawJson : JVal) : Res Row :=
  (getProp rawJson "name").bind fun nm =>
  (getProp nm "firstName").bind fun firstName =>
  (toStr firstName).bind fun first =>
  (getProp nm "lastName").bind fun lastName =>
  (toStr lastName).bind fun last =>
  (getProp rawJson "age").bind fun age =>
  (getProp rawJson "address").bind fun addr =>
  Res.ok
    { name := first ++ " " ++ last
      age := age
      address := if truthy addr then addr else JVal.null
      additional_info :=
        JVal.obj (deleteKey (deleteKey (deleteKey (ownFields rawJson) "name") "age") "address") }

/-- `jsonBatch.map(transformForDb)`: stops at the first element that throws. -/
def mapTransform : List JVal → Res (List Row)
  | [] => Res.ok []
  | r :: rest =>
    (transformForDb r).bind fun row =>
    (mapTransform rest).bind fun rows => Res.ok (row :: rows)

/-- The connection pool and the client it hands out, as transitions on a store `ω`; a call
resolves (`none`) or rejects with an error. -/
structure Db (ω : Type) where
  poolQuery : String → ω → ω × Option JsError
  connect : ω → ω × Option JsError
  clientQuery : String → List JVal → ω → ω × Option JsError
  release : ω → ω

/-- A call the pipeline makes on the pool or on the client. -/
inductive Call where
  | poolQuery (text : String)
  | connect
  | clientQuery (text : String)
  | release
  deriving DecidableEq

/-- The store together with the calls made so far, oldest first. -/
structure World (ω : Type) where
  store : ω
  calls : List Call

/-- The placeholder group of the row at position `j`, counted from 0. -/
def placeholder (j : Nat) : String :=
  "($" ++ toString (4 * j + 1) ++ ", $" ++ toString (4 * j + 2) ++ ", $" ++
    toString (4 * j + 3) ++ ", $" ++ toString (4 * j + 4) ++ ")"

/-- The text of the batch `INSERT` for `n` rows. -/
def insertText (n : Nat) : String :=
  "\n    INSERT INTO public.users (\"name\", age, address, additional_info)\n    VALUES " ++
    ", ".intercalate ((List.range n).map placeholder) ++ "\n  "

/-- The `flattenedValues` of the batch `INSERT`. -/
def flattenedValues (rows : List Row) : List JVal :=
  rows.flatMap fun user => [JVal.str user.name, user.age, user.address, user.additional_info]

/-- One `await client.query(text, values)` inside the `try` block. -/
def clientCall {ω : Type} (db : Db ω) (text : String) (values : List JVal) (w : World ω) :
    World ω × Option JsError :=
  let r := db.clientQuery text values w.store
  (⟨r.1, w.calls ++ [Call.clientQuery text]⟩, r.2)

/-- The `try` block of `insertUsersBatch`: `BEGIN`, the `INSERT`, `COMMIT`. -/
def tryBlock {ω : Type} (db : Db ω) (rows : List Row) (w : World ω) : World ω × Option JsError :=
  match clientCall db "BEGIN" [] w with
  | (w1, some err) => (w1, some err)
  | (w1, none) =>
    match clientCall db (insertText rows.length) (flattenedValues rows) w1 with
    | (w2, some err) => (w2, some err)
    | (w2, none) => clientCall db "COMMIT" [] w2

/-- `insertUsersBatch(jsonBatch)`. -/
def insertUsersBatch {ω : Type} (db : Db ω) (jsonBatch : List JVal) (w : World ω) :
    World ω × Res Unit :=
  if jsonBatch.length = 0 then (w, Res.ok ())
  else
    match mapTransform jsonBatch with
    | Res.throw e => (w, Res.throw e)
    | Res.host => (w, Res.host)
    | Res.pending => (w, Res.pending)
    | Res.ok transformedBatch =>
      match db.connect w.store with
      | (s1, some err) => (⟨s1, w.calls ++ [Call.connect]⟩, Res.throw err)
      | (s1, none) =>
        let release := fun (x : World ω) => (⟨db.release x.store, x.calls ++ [Call.release]⟩ : World ω)
        match tryBlock db transformedBatch ⟨s1, w.calls ++ [Call.connect]⟩ with
        | (w1, none) => (release w1, Res.ok ())
        | (w1, some err) =>
          match clientCall db "ROLLBACK" [] w1 with
          | (w2, some err2) => (release w2, Res.throw err2)
          | (w2, none) => (release w2, Res.throw err)

/-! ## `services/dataImporter.js` -/

/-- The object `importCsvData` returns. -/
structure ImportResult where
  success : Bool
  message : String
  error : Option String
  deriving DecidableEq

/-- The variable `batch` of `importCsvData`, with the state the writer works on. -/
structure ImportState (ω : Type) where
  batch : List JVal
  world : ω

/-- `onDataCallback(jsonObject)`, with `insertUsersBatch` and `BATCH_SIZE` as the module
imports and declares them. -/
def onDataCallback {ω : Type} (BATCH_SIZE : Nat) (insertBatch : List JVal → ω → ω × Res Unit)
    (jsonObject : JVal) (st : ImportState ω) : ImportState ω × Res Unit :=
  let batch := st.batch ++ [jsonObject]
  if batch.length ≥ BATCH_SIZE then
    match insertBatch batch st.world with
    | (w, Res.ok _) => (⟨[], w⟩, Res.ok ())
    | (w, Res.throw e) => (⟨batch, w⟩, Res.throw e)
    | (w, Res.host) => (⟨batch, w⟩, Res.host)
    | (w, Res.pending) => (⟨batch, w⟩, Res.pending)
  else (⟨batch, st.world⟩, Res.ok ())

/-- `importCsvData()`: `truncate` is `pool.query('TRUNCATE TABLE public.users')`. The
result is `Res.ok` of the returned object, `Res.throw` if the call itself throws, and
`Res.pending` if the call never returns because a promise it awaits never settles. -/
def importCsvData {ω : Type} (BATCH_SIZE : Nat) (truncate : ω → ω × Option JsError)
    (insertBatch : List JVal → ω → ω × Res Unit) (toNumber : String → JNum)
    (runtime : Runtime) (filePath : Option String) (file : CsvFile)
    (w : ω) : ImportState ω × Res ImportResult :=
  let failed := fun (err : JsError) =>
    (Res.ok ⟨false, "Import failed.", some err.message⟩ : Res ImportResult)
  let complete : Res ImportResult := Res.ok ⟨true, "Import complete.", none⟩
  match truncate w with
  | (w1, some err) => (⟨[], w1⟩, failed err)
  | (w1, none) =>
    match processCSV toNumber runtime filePath file (onDataCallback BATCH_SIZE insertBatch)
        ⟨[], w1⟩ with
    | (st, Res.throw err) => (st, failed err)
    | (st, Res.host) => (st, Res.host)
    | (st, Res.pending) => (st, Res.pending)
    | (st, Res.ok _) =>
      if st.batch.length > 0 then
        match insertBatch st.batch st.world with
        | (w2, Res.ok _) => (⟨[], w2⟩, complete)
        | (w2, Res.throw err) => (⟨st.batch, w2⟩, failed err)
        | (w2, Res.host) => (⟨st.batch, w2⟩, Res.host)
        | (w2, Res.pending) => (⟨st.batch, w2⟩, Res.pending)
      else (st, complete)

/-- The truncate of `importCsvData` on the pool of `db`. -/
def truncateUsers {ω : Type} (db : Db ω) (w : World ω) : World ω × Option JsError :=
  let r := db.poolQuery "TRUNCATE TABLE public.users" w.store
  (⟨r.1, w.calls ++ [Call.poolQuery "TRUNCATE TABLE public.users"]⟩, r.2)

/-! ## Vocabulary of the claims -/

/-- Whether a value is a plain object. -/
def isObj : JVal → Bool
  | JVal.obj _ => true
  | _ => false

/-- The lookup along `path`: the value found by following own properties, if every step
exists. -/
def lookupPath : JVal → List String → Option JVal
  | v, [] => some v
  | JVal.obj fields, key :: rest =>
    match findField fields key with
    | some child => lookupPath child rest
    | none => none
  | _, _ :: _ => none

/-- The chain of single-key objects along `path` that ends in `v`. -/
def chain : List String → JVal → JVal
  | [], v => v
  | key :: rest, v => JVal.obj [(key, chain rest v)]

/-- A path the record can hold as own properties: it is not empty, no segment before the
last is a name inherited from `Object.prototype`, and the last is not `__proto__`. -/
def pathOk : List String → Bool
  | [] => false
  | [key] => decide (key ≠ "__proto__")
  | key :: key2 :: rest => decide (key ∉ objectProtoKeys) && pathOk (key2 :: rest)

/-- Every value the walk along `path` passes before its last segment is a plain object. -/
def walkable : List (String × JVal) → List String → Bool
  | _, [] => true
  | _, [_] => true
  | fields, key :: key2 :: rest =>
    match findField fields key with
    | none => true
    | some (JVal.obj sub) => walkable sub (key2 :: rest)
    | some _ => false


/-- Two paths neither of which is an initial segment of the other. -/
@[reducible]
def Apart (p q : List String) : Prop := ¬ p <+: q ∧ ¬ q <+: p

/-- The data lines of a file whose comma-split has as many cells as the header line. -/
def matchingLines (header : String) (dataLines : List String) : List String :=
  dataLines.filter fun line => decide ((split line ',').length = (split header ',').length)

/-- The first `k` full batches of `B` records each, cut from `rs` in order. -/
def fullChunks (B k : Nat) (rs : List JVal) : List (List JVal) :=
  (List.range k).map fun i => (rs.drop (i * B)).take B

/-- The batches the accumulator is expected to hand to the writer: `⌊n/B⌋` batches of `B`
records each, then one batch with the remaining `n mod B` records when there are any. -/
def batchesOf (B : Nat) (rs : List JVal) : List (List JVal) :=
  fullChunks B (rs.length / B) rs ++
    (if rs.length % B = 0 then [] else [rs.drop (rs.length / B * B)])

/-- Whether a value is a string or a number. -/
def isScalar : JVal → Bool
  | JVal.str _ => true
  | JVal.num _ => true
  | _ => false

/-- The text of a scalar: the string itself, or the rendering of the number. -/
def scalarText : JVal → String
  | JVal.str s => s
  | JVal.num n => n.repr
  | _ => ""

/-- The text a name sub-field contributes: `undefined` when the field is absent. -/
def segmentText : Option JVal → String
  | none => "undefined"
  | some v => scalarText v

/-! ## Stand-ins used to evaluate the definitions on examples -/

/-- A stand-in for the built-in `Number` on cells: a run of decimal digits without a
leading zero is the number it spells, and any other text is `NaN`. It agrees with the
built-in on every cell the examples below use. -/
def decimalNumber (s : String) : JNum :=
  if s.toList ≠ [] ∧ s.toList.all Char.isDigit ∧ (s.toList.head? ≠ some '0' ∨ s = "0")
  then ⟨s⟩ else ⟨"NaN"⟩

/-- A runtime that throws on every run handed to it; it stands where no run leaves the
record. -/
def refusingRuntime : Runtime :=
  fun _ _ _ => Except.error ⟨"TypeError", "not modelled"⟩

/-- A handler that records what it is given and never fails. -/
def recordHandler (r : JVal) (seen : List JVal) : List JVal × Res Unit :=
  (seen ++ [r], Res.ok ())

/-- A writer that records the batches it is given and never fails. -/
def recordWriter (b : List JVal) (seen : List (List JVal)) : List (List JVal) × Res Unit :=
  (seen ++ [b], Res.ok ())

/-- A store on which every call resolves except the batch `INSERT`, which rejects. -/
def insertFailsDb : Db Unit where
  poolQuery := fun _ s => (s, none)
  connect := fun s => (s, none)
  clientQuery := fun text _ s =>
    if text = "BEGIN" ∨ text = "COMMIT" ∨ text = "ROLLBACK" then (s, none)
    else (s, some ⟨"Error", "insert failed"⟩)
  release := fun s => s

/-- A store whose connection is lost during the batch `INSERT`: the `INSERT` rejects, and so
does the `ROLLBACK` that follows. -/
def connectionLostDb : Db Unit where
  poolQuery := fun _ s => (s, none)
  connect := fun s => (s, none)
  clientQuery := fun text _ s =>
    if text = "BEGIN" ∨ text = "COMMIT" then (s, none)
    else if text = "ROLLBACK" then (s, some ⟨"Error", "connection lost"⟩)
    else (s, some ⟨"Error", "insert failed"⟩)
  release := fun s => s

/-- The record of the row `Jane,Doe,30`. -/
def janeRecord : JVal :=
  JVal.obj [("name", JVal.obj [("firstName", JVal.str "Jane"), ("lastName", JVal.str "Doe")]),
    ("age", JVal.num ⟨"30"⟩)]

/-- A store that counts the batch `INSERT`s it is sent and rejects the second one. -/
def secondInsertFailsDb : Db Nat where
  poolQuery := fun _ s => (s, none)
  connect := fun s => (s, none)
  clientQuery := fun text _ s =>
    if text = "BEGIN" ∨ text = "COMMIT" ∨ text = "ROLLBACK" then (s, none)
    else if s = 1 then (s + 1, some ⟨"Error", "Fake DB Error"⟩)
    else (s + 1, none)
  release := fun s => s

/-- A file of five rows under the header `name.firstName,name.lastName,age`. -/
def fiveRows : CsvFile :=
  ⟨["name.firstName,name.lastName,age", "A,B,1", "C,D,2", "E,F,3", "G,H,4", "I,J,5"], none⟩

/-! ## Lemmas on property lists -/

theorem findField_upsert_same (fields : List (String × JVal)) (key : String) (v : JVal) :
    findField (upsert fields key v) key = some v := by
  induction fields with
  | nil => simp [upsert, findField]
  | cons hd tl ih =>
    obtain ⟨k, w⟩ := hd
    by_cases h : k = key
    · simp [upsert, findField, h]
    · simp [upsert, findField, h, ih]

theorem findField_upsert_other (fields : List (String × JVal)) (key key2 : String) (v : JVal)
    (h : key2 ≠ key) : findField (upsert fields key v) key2 = findField fields key2 := by
  induction fields with
  | nil =>
    have h2 : ¬ key = key2 := fun e => h e.symm
    simp [upsert, findField, h2]
  | cons hd tl ih =>
    obtain ⟨k, w⟩ := hd
    by_cases hk : k = key
    · subst hk
      have h2 : ¬ k = key2 := fun e => h e.symm
      simp [upsert, findField, h2]
    · by_cases hk2 : k = key2
      · subst hk2
        simp [upsert, findField, hk]
      · simp [upsert, findField, hk, hk2, ih]

theorem upsert_upsert (fields : List (String × JVal)) (key : String) (a b : JVal) :
    upsert (upsert fields key a) key b = upsert fields key b := by
  induction fields with
  | nil => simp [upsert]
  | cons hd tl ih =>
    obtain ⟨k, w⟩ := hd
    by_cases h : k = key
    · simp [upsert, h]
    · simp [upsert, h, ih]

@[simp] theorem lookupPath_nil (v : JVal) : lookupPath v [] = some v := by
  cases v <;> rfl

theorem lookupPath_nil_fields (key : String) (rest : List String) :
    lookupPath (JVal.obj []) (key :: rest) = none := by
  simp [lookupPath, findField]

theorem walkable_nil (path : List String) : walkable [] path = true := by
  match path with
  | [] => rfl
  | [_] => rfl
  | _ :: _ :: _ => simp [walkable, findField]

theorem proto_mem_objectProtoKeys : "__proto__" ∈ objectProtoKeys := by decide

/-! ## The walk of `setNestedProperty` through plain objects -/

theorem setNestedProperty_plain (p : List String) :
    ∀ (fields : List (String × JVal)) (v : JVal), pathOk p = true → walkable fields p = true →
      ∃ fields2, setNestedProperty (JVal.obj fields) p v = Res.ok (JVal.obj fields2) ∧
        (∀ t, lookupPath (JVal.obj fields2) (p ++ t) = lookupPath v t) ∧
        (∀ r, r <+: p → r ≠ p → ∃ fs, lookupPath (JVal.obj fields2) r = some (JVal.obj fs)) ∧
        (∀ q, ¬ p <+: q → ¬ q <+: p →
          lookupPath (JVal.obj fields2) q = lookupPath (JVal.obj fields) q) := by
  induction p with
  | nil => intro fields v h; simp [pathOk] at h
  | cons k rest ih =>
    intro fields v hp hw
    cases rest with
    | nil =>
      have hk : k ≠ "__proto__" := by simpa [pathOk] using hp
      refine ⟨upsert fields k v, ?_, ?_, ?_, ?_⟩
      · simp [setNestedProperty, setProp, hk]
      · intro t
        simp [lookupPath, findField_upsert_same]
      · intro r hr hne
        cases r with
        | nil => exact ⟨_, rfl⟩
        | cons a r2 =>
          exfalso
          rw [List.cons_prefix_cons] at hr
          obtain ⟨h1, h2⟩ := hr
          have : r2 = [] := List.prefix_nil.mp h2
          subst this; subst h1
          exact hne rfl
      · intro q h1 h2
        cases q with
        | nil => exact absurd (List.nil_prefix) h2
        | cons a t =>
          have hak : a ≠ k := by
            intro e
            apply h1
            rw [List.cons_prefix_cons]
            exact ⟨e.symm, List.nil_prefix⟩
          simp [lookupPath, findField_upsert_other _ _ _ _ hak]
    | cons k2 rest2 =>
      have hp1 : k ∉ objectProtoKeys := by
        simp only [pathOk, Bool.and_eq_true, decide_eq_true_eq] at hp
        exact hp.1
      have hp2 : pathOk (k2 :: rest2) = true := by
        simp only [pathOk, Bool.and_eq_true, decide_eq_true_eq] at hp
        exact hp.2
      have hk : k ≠ "__proto__" := fun e => hp1 (e ▸ proto_mem_objectProtoKeys)
      -- the object the walk descends into, before and after
      have key : ∃ sub, (findField fields k = none ∧ sub = [] ∨ findField fields k = some (JVal.obj sub)) ∧
          walkable sub (k2 :: rest2) = true ∧
          ∀ sub2, setNestedProperty (JVal.obj sub) (k2 :: rest2) v = Res.ok (JVal.obj sub2) →
            setNestedProperty (JVal.obj fields) (k :: k2 :: rest2) v =
              Res.ok (JVal.obj (upsert fields k (JVal.obj sub2))) := by
        cases hf : findField fields k with
        | none =>
          refine ⟨[], Or.inl ⟨rfl, rfl⟩, walkable_nil _, ?_⟩
          intro sub2 hs
          simp [setNestedProperty, getProp, hf, hp1, Res.bind, truthy, setProp, hk,
            findField_upsert_same, hs, storeBack, upsert_upsert]
        | some c =>
          cases c with
          | obj sub =>
            refine ⟨sub, Or.inr rfl, ?_, ?_⟩
            · simpa [walkable, hf] using hw
            · intro sub2 hs
              simp [setNestedProperty, getProp, hf, Res.bind, truthy, hs, storeBack]
          | undefined => simp [walkable, hf] at hw
          | null => simp [walkable, hf] at hw
          | str s => simp [walkable, hf] at hw
          | num n => simp [walkable, hf] at hw
      obtain ⟨sub, hsub, hwsub, hset⟩ := key
      obtain ⟨sub2, e1, e2, e3, e4⟩ := ih sub v hp2 hwsub
      refine ⟨upsert fields k (JVal.obj sub2), hset sub2 e1, ?_, ?_, ?_⟩
      · intro t
        have := e2 t
        simpa [lookupPath, findField_upsert_same] using this
      · intro r hr hne
        cases r with
        | nil => exact ⟨_, rfl⟩
        | cons a r2 =>
          rw [List.cons_prefix_cons] at hr
          obtain ⟨h1, h2⟩ := hr
          subst h1
          have hne2 : r2 ≠ k2 :: rest2 := fun e => hne (by rw [e])
          obtain ⟨fs, hfs⟩ := e3 r2 h2 hne2
          exact ⟨fs, by simpa [lookupPath, findField_upsert_same] using hfs⟩
      · intro q h1 h2
        cases q with
        | nil => exact absurd (List.nil_prefix) h2
        | cons a t =>
          by_cases hak : a = k
          · subst hak
            have h1t : ¬ (k2 :: rest2) <+: t := fun h => h1 (by
              rw [List.cons_prefix_cons]; exact ⟨rfl, h⟩)
            have h2t : ¬ t <+: (k2 :: rest2) := fun h => h2 (by
              rw [List.cons_prefix_cons]; exact ⟨rfl, h⟩)
            have e := e4 t h1t h2t
            have htne : t ≠ [] := fun e0 => h2t (e0 ▸ List.nil_prefix)
            rcases hsub with ⟨hf, hs⟩ | hf
            · subst hs
              obtain ⟨b, t2, rfl⟩ := List.exists_cons_of_ne_nil htne
              rw [lookupPath_nil_fields] at e
              have e5 : lookupPath (JVal.obj (upsert fields a (JVal.obj sub2))) (a :: b :: t2) =
                  lookupPath (JVal.obj sub2) (b :: t2) := by
                simp [lookupPath, findField_upsert_same]
              rw [e5, e]
              simp [lookupPath, hf]
            · simp [lookupPath, findField_upsert_same, hf, e]
          · simp [lookupPath, findField_upsert_other _ _ _ _ hak]

theorem setNestedProperty_empty_chain (p : List String) (v : JVal) (hp : pathOk p = true) :
    setNestedProperty (JVal.obj []) p v = Res.ok (chain p v) := by
  induction p with
  | nil => simp [pathOk] at hp
  | cons k rest ih =>
    cases rest with
    | nil =>
      have hk : k ≠ "__proto__" := by simpa [pathOk] using hp
      simp [setNestedProperty, setProp, hk, chain, upsert]
    | cons k2 rest2 =>
      simp only [pathOk, Bool.and_eq_true, decide_eq_true_eq] at hp
      have hk : k ≠ "__proto__" := fun e => hp.1 (e ▸ proto_mem_objectProtoKeys)
      simp [setNestedProperty, getProp, findField, hp.1, Res.bind, truthy, setProp, hk, upsert,
        ih hp.2, storeBack, chain]

theorem lookupPath_chain (p : List String) (v : JVal) : lookupPath (chain p v) p = some v := by
  induction p with
  | nil => simp [chain]
  | cons k rest ih => simp [chain, lookupPath, findField, ih]

theorem walkable_of_lookup (q : List String) :
    ∀ fields : List (String × JVal),
      (∀ r x, r <+: q → r ≠ q → lookupPath (JVal.obj fields) r = some x → isObj x = true) →
      walkable fields q = true := by
  induction q with
  | nil => intro fields _; rfl
  | cons k rest ih =>
    intro fields h
    cases rest with
    | nil => rfl
    | cons k2 rest2 =>
      cases hf : findField fields k with
      | none => simp [walkable, hf]
      | some c =>
        have hc : isObj c = true := by
          apply h [k] c
          · rw [List.cons_prefix_cons]; exact ⟨rfl, List.nil_prefix⟩
          · simp
          · simp [lookupPath, hf]
        cases c with
        | obj sub =>
          simp only [walkable, hf]
          apply ih sub
          intro r x hr hne hl
          apply h (k :: r) x
          · rw [List.cons_prefix_cons]; exact ⟨rfl, hr⟩
          · intro e; apply hne; simpa using e
          · simpa [lookupPath, hf] using hl
        | undefined => simp [isObj] at hc
        | null => simp [isObj] at hc
        | str s => simp [isObj] at hc
        | num n => simp [isObj] at hc

theorem lookupPath_scalar (v : JVal) (hv : isObj v = false) (k : String) (t : List String) :
    lookupPath v (k :: t) = none := by
  cases v with
  | obj fs => simp [isObj] at hv
  | undefined => rfl
  | null => rfl
  | str s => rfl
  | num n => rfl

/-- Two calls of `setNestedProperty` on a fresh object, on paths that are apart. -/
theorem setNestedProperty_twice (p q : List String) (v w : JVal)
    (hp : pathOk p = true) (hq : pathOk q = true) (hpq : Apart p q) :
    ∃ f1 f2, setNestedProperty (JVal.obj []) p v = Res.ok (JVal.obj f1) ∧
      setNestedProperty (JVal.obj f1) q w = Res.ok (JVal.obj f2) ∧
      lookupPath (JVal.obj f2) p = some v ∧ lookupPath (JVal.obj f2) q = some w ∧
      ∀ r, Apart q r → lookupPath (JVal.obj f2) r = lookupPath (JVal.obj f1) r := by
  obtain ⟨f1, a1, a2, a3, a4⟩ := setNestedProperty_plain p [] v hp (walkable_nil p)
  have hw : walkable f1 q = true := by
    apply walkable_of_lookup
    intro r x hr hne hl
    by_cases h1 : r <+: p
    · have hne2 : r ≠ p := fun e => hpq.1 (e ▸ hr)
      obtain ⟨fs, hfs⟩ := a3 r h1 hne2
      rw [hfs] at hl
      cases hl
      rfl
    · by_cases h2 : p <+: r
      · exact absurd (h2.trans hr) hpq.1
      · rw [a4 r h2 h1] at hl
        cases r with
        | nil => exact absurd List.nil_prefix h1
        | cons a t => simp [lookupPath, findField] at hl
  obtain ⟨f2, b1, b2, _, b4⟩ := setNestedProperty_plain q f1 w hq hw
  refine ⟨f1, f2, a1, b1, ?_, ?_, ?_⟩
  · rw [b4 p hpq.2 hpq.1]
    simpa using a2 []
  · simpa using b2 []
  · intro r hr
    exact b4 r hr.1 hr.2

theorem isObj_cellValue (toNumber : String → JNum) (raw : String) :
    isObj (cellValue toNumber raw) = false := by
  unfold cellValue
  split <;> rfl

/-- The loop invariant of `buildNestedObject`: every scalar of the record sits at a path
already written, and the paths still to write are apart from those and from each other. -/
theorem buildLoop_spec (toNumber : String → JNum) (hs : List String) :
    ∀ (vs : List String) (fields : List (String × JVal)) (done : List (List String)),
      hs.length = vs.length →
      (∀ h ∈ hs, pathOk (split h '.') = true) →
      List.Pairwise (fun a b => Apart (split a '.') (split b '.')) hs →
      (∀ d ∈ done, ∀ h ∈ hs, Apart d (split h '.')) →
      (∀ r x, lookupPath (JVal.obj fields) r = some x → isObj x = false → r ∈ done) →
      ∃ fields2, buildLoop toNumber (JVal.obj fields) hs vs = Res.ok (JVal.obj fields2) ∧
        (∀ c ∈ hs.zip vs,
          lookupPath (JVal.obj fields2) (split c.1 '.') = some (cellValue toNumber c.2)) ∧
        (∀ d ∈ done, lookupPath (JVal.obj fields2) d = lookupPath (JVal.obj fields) d) := by
  induction hs with
  | nil =>
    intro vs fields done _ _ _ _ _
    exact ⟨fields, rfl, by simp, fun _ _ => rfl⟩
  | cons h hs2 ih =>
    intro vs fields done hlen hok hpw hdone hinv
    cases vs with
    | nil => simp at hlen
    | cons raw vs2 =>
      have hp : pathOk (split h '.') = true := hok h (List.mem_cons_self _ _)
      have hw : walkable fields (split h '.') = true := by
        apply walkable_of_lookup
        intro r x hr hne hl
        by_contra hx
        have hx2 : isObj x = false := by simpa using hx
        have hmem := hinv r x hl hx2
        exact (hdone r hmem h (List.mem_cons_self _ _)).1 hr
      obtain ⟨f1, a1, a2, a3, a4⟩ :=
        setNestedProperty_plain (split h '.') fields (cellValue toNumber raw) hp hw
      rw [List.pairwise_cons] at hpw
      have hinv1 : ∀ r x, lookupPath (JVal.obj f1) r = some x → isObj x = false →
          r ∈ split h '.' :: done := by
        intro r x hl hx
        by_cases h1 : split h '.' <+: r
        · obtain ⟨t, rfl⟩ := h1
          rw [a2 t] at hl
          cases t with
          | nil => simp
          | cons b t2 =>
            rw [lookupPath_scalar _ (isObj_cellValue toNumber raw)] at hl
            cases hl
        · by_cases h2 : r <+: split h '.'
          · have hne : r ≠ split h '.' := fun e => h1 (e ▸ List.prefix_refl _)
            obtain ⟨fs, hfs⟩ := a3 r h2 hne
            rw [hfs] at hl
            cases hl
            simp [isObj] at hx
          · rw [a4 r h1 h2] at hl
            exact List.mem_cons_of_mem _ (hinv r x hl hx)
      have hdone1 : ∀ d ∈ split h '.' :: done, ∀ g ∈ hs2, Apart d (split g '.') := by
        intro d hd g hg
        rcases List.mem_cons.mp hd with rfl | hd
        · exact hpw.1 g hg
        · exact hdone d hd g (List.mem_cons_of_mem _ hg)
      obtain ⟨f2, b1, b2, b3⟩ := ih vs2 f1 (split h '.' :: done) (by simpa using hlen)
        (fun g hg => hok g (List.mem_cons_of_mem _ hg)) hpw.2 hdone1 hinv1
      refine ⟨f2, ?_, ?_, ?_⟩
      · simp [buildLoop, a1, Res.bind, b1]
      · intro c hc
        rw [List.zip_cons_cons, List.mem_cons] at hc
        rcases hc with rfl | hc
        · rw [b3 _ (List.mem_cons_self _ _)]
          simpa using a2 []
        · exact b2 c hc
      · intro d hd
        rw [b3 d (List.mem_cons_of_mem _ hd)]
        have hap := hdone d hd h (List.mem_cons_self _ _)
        exact a4 d hap.2 hap.1

theorem buildNestedObject_spec (toNumber : String → JNum) (hs vs : List String)
    (hlen : hs.length = vs.length)
    (hok : ∀ h ∈ hs, pathOk (split h '.') = true)
    (hpw : List.Pairwise (fun a b => Apart (split a '.') (split b '.')) hs) :
    ∃ fields, buildNestedObject toNumber hs vs = Res.ok (JVal.obj fields) ∧
      ∀ c ∈ hs.zip vs,
        lookupPath (JVal.obj fields) (split c.1 '.') = some (cellValue toNumber c.2) := by
  obtain ⟨f, h1, h2, _⟩ := buildLoop_spec toNumber hs vs [] [] hlen hok hpw
    (by intro d hd; simp at hd)
    (by
      intro r x hl hx
      cases r with
      | nil => simp at hl; subst hl; simp [isObj] at hx
      | cons a t => simp [lookupPath, findField] at hl)
  exact ⟨f, h1, h2⟩

theorem zip_getElem_mem (hs vs : List String) (i : Nat) (hi : i < hs.length)
    (hv : i < vs.length) : (hs[i], vs[i]) ∈ hs.zip vs := by
  have h : i < (hs.zip vs).length := by
    simp only [List.length_zip, lt_min_iff]
    exact ⟨hi, hv⟩
  have hm := List.getElem_mem h
  simpa [List.getElem_zip] using hm

/-! ## Claims on `setNestedProperty` -/

/-- C6, as stated, fails: on the one-segment path `__proto__` the write goes to the
inherited setter, which ignores a string; the object stays empty, it is not the chain
`{__proto__: 'deep'}`, and it has no own value along the path. -/
theorem setNestedProperty_proto_not_chain :
    setNestedProperty (JVal.obj []) ["__proto__"] (JVal.str "deep") = Res.ok (JVal.obj []) ∧
    JVal.obj [] ≠ chain ["__proto__"] (JVal.str "deep") ∧
    lookupPath (JVal.obj []) ["__proto__"] ≠ some (JVal.str "deep") := by
  refine ⟨rfl, ?_, ?_⟩
  · intro h
    simp [chain] at h
  · intro h
    simp [lookupPath, findField] at h

/-- C6 (amended): for every non-empty path in which no segment before the last is a name
inherited from `Object.prototype` and whose last segment is not `__proto__`, and every
value `v`, `setNestedProperty` on an empty object leaves exactly the chain of single-key
objects along the path ending in `v`, and the lookup along the path returns `v`; the
length of the path is arbitrary. -/
theorem setNestedProperty_chain (p : List String) (v : JVal) (hp : pathOk p = true) :
    setNestedProperty (JVal.obj []) p v = Res.ok (chain p v) ∧
    lookupPath (chain p v) p = some v :=
  ⟨setNestedProperty_empty_chain p v hp, lookupPath_chain p v⟩

theorem setNestedProperty_chain_witness :
    pathOk ["a", "b", "c", "d", "e"] = true ∧
    setNestedProperty (JVal.obj []) ["a", "b", "c", "d", "e"] (JVal.str "deep") =
      Res.ok (JVal.obj [("a", JVal.obj [("b", JVal.obj [("c", JVal.obj [("d",
        JVal.obj [("e", JVal.str "deep")])])])])]) :=
  ⟨by decide, (setNestedProperty_chain ["a", "b", "c", "d", "e"] (JVal.str "deep") (by decide)).1⟩

/-- C7, as stated, fails: `['a','b']` and `['a']` are different paths that share the leading
segment `a`; after writing `'x'` along the first and `'y'` along the second the record is
`{a: 'y'}`, and the lookup along the first path no longer finds `'x'`. -/
theorem setNestedProperty_shorter_path_overwrites :
    (setNestedProperty (JVal.obj []) ["a", "b"] (JVal.str "x")).bind
        (fun o => setNestedProperty o ["a"] (JVal.str "y")) =
      Res.ok (JVal.obj [("a", JVal.str "y")]) ∧
    lookupPath (JVal.obj [("a", JVal.str "y")]) ["a", "b"] = none := ⟨rfl, rfl⟩

/-- C7 (amended): for two paths neither of which is an initial segment of the other (each
with no inherited name before its last segment and a last segment other than `__proto__`)
and any values `v`, `w`: after `set(root, p, v)` and then `set(root, q, w)` on an empty
root, the lookup along `p` returns `v`, the lookup along `q` returns `w`, and the second
call changes the lookup along no path that is apart from `q`. -/
theorem setNestedProperty_siblings (p q : List String) (v w : JVal)
    (hp : pathOk p = true) (hq : pathOk q = true) (hpq : Apart p q) :
    ∃ o1 o2, setNestedProperty (JVal.obj []) p v = Res.ok o1 ∧
      setNestedProperty o1 q w = Res.ok o2 ∧
      lookupPath o2 p = some v ∧ lookupPath o2 q = some w ∧
      ∀ r, Apart q r → lookupPath o2 r = lookupPath o1 r := by
  obtain ⟨f1, f2, h1, h2, h3, h4, h5⟩ := setNestedProperty_twice p q v w hp hq hpq
  exact ⟨JVal.obj f1, JVal.obj f2, h1, h2, h3, h4, h5⟩

theorem setNestedProperty_siblings_witness :
    pathOk ["name", "firstName"] = true ∧ pathOk ["name", "lastName"] = true ∧
    Apart ["name", "firstName"] ["name", "lastName"] ∧
    ∃ o1 o2, setNestedProperty (JVal.obj []) ["name", "firstName"] (JVal.str "Jane") = Res.ok o1 ∧
      setNestedProperty o1 ["name", "lastName"] (JVal.str "Doe") = Res.ok o2 ∧
      lookupPath o2 ["name", "firstName"] = some (JVal.str "Jane") ∧
      lookupPath o2 ["name", "lastName"] = some (JVal.str "Doe") ∧
      ∀ r, Apart ["name", "lastName"] r → lookupPath o2 r = lookupPath o1 r :=
  ⟨by decide, by decide, by decide,
    setNestedProperty_siblings ["name", "firstName"] ["name", "lastName"] (JVal.str "Jane")
      (JVal.str "Doe") (by decide) (by decide) (by decide)⟩

/-! ## Claims on `buildNestedObject` -/

/-- C5, as stated, fails: the single header `__proto__` is a list of pairwise distinct
paths none of which is an initial segment of another, and the record built from the cell
`x` is the empty object, which holds nothing at that path. -/
theorem buildNestedObject_proto_header_lost :
    buildNestedObject decimalNumber ["__proto__"] ["x"] = Res.ok (JVal.obj []) ∧
    lookupPath (JVal.obj []) (split "__proto__" '.') = none := ⟨rfl, rfl⟩

/-- C5 (amended): for headers and values of equal length whose dotted paths are pairwise
apart (distinct, none an initial segment of another), no path having an inherited name
before its last segment or `__proto__` as its last segment, `buildNestedObject` returns a
record that holds at each header's path the number `Number(cell)` exactly when the cell is
non-empty and its conversion is not `NaN`, and the cell's own string otherwise. -/
theorem buildNestedObject_typed (toNumber : String → JNum) (hs vs : List String)
    (hlen : hs.length = vs.length)
    (hok : ∀ h ∈ hs, pathOk (split h '.') = true)
    (hpw : List.Pairwise (fun a b => Apart (split a '.') (split b '.')) hs) :
    ∃ o, buildNestedObject toNumber hs vs = Res.ok o ∧
      ∀ (i : Nat) (hi : i < hs.length) (hv : i < vs.length),
        (vs[i] ≠ "" ∧ (toNumber vs[i]).repr ≠ "NaN" →
          lookupPath o (split hs[i] '.') = some (JVal.num (toNumber vs[i]))) ∧
        (¬ (vs[i] ≠ "" ∧ (toNumber vs[i]).repr ≠ "NaN") →
          lookupPath o (split hs[i] '.') = some (JVal.str vs[i])) := by
  obtain ⟨f, h1, h2⟩ := buildNestedObject_spec toNumber hs vs hlen hok hpw
  refine ⟨JVal.obj f, h1, ?_⟩
  intro i hi hv
  have hm := h2 _ (zip_getElem_mem hs vs i hi hv)
  constructor
  · intro hc
    simpa [cellValue, hc] using hm
  · intro hc
    simpa [cellValue, hc] using hm

theorem buildNestedObject_typed_witness :
    ["a.b", "a.c", "age"].length = ["1", "x", "30"].length ∧
    (∀ h ∈ ["a.b", "a.c", "age"], pathOk (split h '.') = true) ∧
    List.Pairwise (fun a b => Apart (split a '.') (split b '.')) ["a.b", "a.c", "age"] ∧
    buildNestedObject decimalNumber ["a.b", "a.c", "age"] ["1", "x", "30"] =
      Res.ok (JVal.obj [("a", JVal.obj [("b", JVal.num ⟨"1"⟩), ("c", JVal.str "x")]),
        ("age", JVal.num ⟨"30"⟩)]) ∧
    ∃ o, buildNestedObject decimalNumber ["a.b", "a.c", "age"] ["1", "x", "30"] = Res.ok o ∧
      ∀ (i : Nat) (_ : i < ["a.b", "a.c", "age"].length) (hv : i < ["1", "x", "30"].length),
        (["1", "x", "30"][i] ≠ "" ∧ (decimalNumber ["1", "x", "30"][i]).repr ≠ "NaN" →
          lookupPath o (split ["a.b", "a.c", "age"][i] '.') =
            some (JVal.num (decimalNumber ["1", "x", "30"][i]))) ∧
        (¬ (["1", "x", "30"][i] ≠ "" ∧ (decimalNumber ["1", "x", "30"][i]).repr ≠ "NaN") →
          lookupPath o (split ["a.b", "a.c", "age"][i] '.') =
            some (JVal.str ["1", "x", "30"][i])) :=
  ⟨rfl, by decide, by decide, rfl,
    buildNestedObject_typed decimalNumber ["a.b", "a.c", "age"] ["1", "x", "30"] rfl
      (by decide) (by decide)⟩

/-- C8, as stated, fails: with the header `a` twice and the cells `""` and `x`, the second
column overwrites the first, and the lookup along the path of the first header, whose cell
is empty, yields `'x'`. -/
theorem buildNestedObject_duplicate_header_overwrites :
    buildNestedObject decimalNumber ["a", "a"] ["", "x"] = Res.ok (JVal.obj [("a", JVal.str "x")]) ∧
    lookupPath (JVal.obj [("a", JVal.str "x")]) (split "a" '.') = some (JVal.str "x") ∧
    JVal.str "x" ≠ JVal.str "" := by
  refine ⟨rfl, rfl, ?_⟩
  intro h
  simp at h

/-- C8 (amended): for headers and values of equal length whose dotted paths are pairwise
apart, no path having an inherited name before its last segment or `__proto__` as its last
segment, and every index `i` whose cell is the empty string, the record returned by
`buildNestedObject` yields the string `""` along the path of `headers[i]`: not a number
zero, not `null`. -/
theorem buildNestedObject_empty_cell (toNumber : String → JNum) (hs vs : List String)
    (hlen : hs.length = vs.length)
    (hok : ∀ h ∈ hs, pathOk (split h '.') = true)
    (hpw : List.Pairwise (fun a b => Apart (split a '.') (split b '.')) hs)
    (i : Nat) (hi : i < hs.length) (hv : i < vs.length) (hempty : vs[i] = "") :
    ∃ o, buildNestedObject toNumber hs vs = Res.ok o ∧
      lookupPath o (split hs[i] '.') = some (JVal.str "") ∧
      lookupPath o (split hs[i] '.') ≠ some (JVal.num ⟨"0"⟩) ∧
      lookupPath o (split hs[i] '.') ≠ some JVal.null := by
  obtain ⟨f, h1, h2⟩ := buildNestedObject_spec toNumber hs vs hlen hok hpw
  have hm := h2 _ (zip_getElem_mem hs vs i hi hv)
  have hl : lookupPath (JVal.obj f) (split hs[i] '.') = some (JVal.str "") := by
    simpa [cellValue, hempty] using hm
  refine ⟨JVal.obj f, h1, hl, ?_, ?_⟩
  · rw [hl]; intro h; simp at h
  · rw [hl]; intro h; simp at h

theorem buildNestedObject_empty_cell_witness :
    ["name", "age"].length = ["", "30"].length ∧
    (∀ h ∈ ["name", "age"], pathOk (split h '.') = true) ∧
    List.Pairwise (fun a b => Apart (split a '.') (split b '.')) ["name", "age"] ∧
    ["", "30"][0] = "" ∧
    ∃ o, buildNestedObject decimalNumber ["name", "age"] ["", "30"] = Res.ok o ∧
      lookupPath o (split ["name", "age"][0] '.') = some (JVal.str "") ∧
      lookupPath o (split ["name", "age"][0] '.') ≠ some (JVal.num ⟨"0"⟩) ∧
      lookupPath o (split ["name", "age"][0] '.') ≠ some JVal.null :=
  ⟨rfl, by decide, by decide, rfl,
    buildNestedObject_empty_cell decimalNumber ["name", "age"] ["", "30"] rfl (by decide)
      (by decide) 0 (by decide) (by decide) rfl⟩

/-! ## Claims on `processCSV` -/

theorem processLoop_delivers {σ : Type} (toNumber : String → JNum) (runtime : Runtime)
    (onData : JVal → σ → σ × Res Unit) (hnf : ∀ r s, (onData r s).2 = Res.ok ())
    (header : String) (dataLines : List String) :
    ∀ (records : List JVal) (s : σ),
      (matchingLines header dataLines).map
          (fun line => buildNestedObject toNumber (split header ',') (split line ',')) =
        records.map Res.ok →
      processLoop toNumber runtime onData dataLines (split header ',') false s =
        (records.foldl (fun st r => (onData r st).1) s, Res.ok ()) := by
  induction dataLines with
  | nil =>
    intro records s h
    cases records with
    | nil => rfl
    | cons r rs => simp [matchingLines] at h
  | cons line rest ih =>
    intro records s h
    by_cases hlen : (split line ',').length = (split header ',').length
    · have hm : matchingLines header (line :: rest) = line :: matchingLines header rest := by
        simp [matchingLines, hlen]
      rw [hm] at h
      cases records with
      | nil => simp at h
      | cons r rs =>
        simp only [List.map_cons, List.cons.injEq] at h
        obtain ⟨h1, h2⟩ := h
        have hd := hnf r s
        have hpair : onData r s = ((onData r s).1, Res.ok ()) := by
          rw [← hd]
        have hbuild : buildInLoop toNumber runtime (split header ',') (split line ',')
            rest.length = Res.ok r := by
          simp [buildInLoop, h1]
        simp only [processLoop, hlen, hbuild, List.foldl_cons]
        rw [hpair]
        simpa using ih rs (onData r s).1 h2
    · have hm : matchingLines header (line :: rest) = matchingLines header rest := by
        simp [matchingLines, hlen]
      rw [hm] at h
      simpa [processLoop, hlen] using ih records s h

theorem processCSV_fold {σ : Type} (toNumber : String → JNum) (runtime : Runtime)
    (path : String)
    (onData : JVal → σ → σ × Res Unit) (hnf : ∀ r s, (onData r s).2 = Res.ok ())
    (header : String) (dataLines : List String) (records : List JVal) (s : σ)
    (hb : (matchingLines header dataLines).map
        (fun line => buildNestedObject toNumber (split header ',') (split line ',')) =
      records.map Res.ok) :
    processCSV toNumber runtime (some path) ⟨header :: dataLines, none⟩ onData s =
      (records.foldl (fun st r => (onData r st).1) s, Res.ok ()) := by
  have h := processLoop_delivers toNumber runtime onData hnf header dataLines records s hb
  simp [processCSV, processLoop, h]

/-- C1, as stated, fails: with the header `a,a.b.c` (two cells) and the data line `5,1` (two
cells) the second column walks through the number stored by the first, `buildNestedObject`
throws a `TypeError`, and `processCSV` rejects with it although the handler never fails;
the handler has received nothing. -/
theorem processCSV_rejects_on_scalar_parent :
    processCSV decimalNumber refusingRuntime (some "users.csv") ⟨["a,a.b.c", "5,1"], none⟩
        recordHandler [] =
      ([], Res.throw (writeTypeError "undefined" "c")) := rfl

/-- C1 (amended): for a file at a configured path, made of a header line and any data
lines, read without a stream error, and a handler that never fails: whenever `buildNestedObject` returns a
record for every data line whose comma-split has as many cells as the header, `processCSV`
resolves, and the handler has been run, in file order, on exactly those records; the data
lines with another number of cells are skipped and the header line is never passed on. -/
theorem processCSV_delivers {σ : Type} (toNumber : String → JNum) (runtime : Runtime)
    (path : String)
    (onData : JVal → σ → σ × Res Unit) (header : String) (dataLines : List String)
    (records : List JVal) (s : σ)
    (hnf : ∀ r st, (onData r st).2 = Res.ok ())
    (hb : (dataLines.filter fun line =>
          decide ((split line ',').length = (split header ',').length)).map
        (fun line => buildNestedObject toNumber (split header ',') (split line ',')) =
      records.map Res.ok) :
    processCSV toNumber runtime (some path) ⟨header :: dataLines, none⟩ onData s =
      (records.foldl (fun st r => (onData r st).1) s, Res.ok ()) :=
  processCSV_fold toNumber runtime path onData hnf header dataLines records s hb

theorem processCSV_delivers_witness :
    (∀ r st, (recordHandler r st).2 = Res.ok ()) ∧
    processCSV decimalNumber refusingRuntime (some "users.csv")
        ⟨["a,b", "1,x", "2", "3,y,z", "4,w"], none⟩ recordHandler [] =
      ([JVal.obj [("a", JVal.num ⟨"1"⟩), ("b", JVal.str "x")],
        JVal.obj [("a", JVal.num ⟨"4"⟩), ("b", JVal.str "w")]], Res.ok ()) :=
  ⟨fun _ _ => rfl,
    processCSV_delivers decimalNumber refusingRuntime "users.csv" recordHandler "a,b"
      ["1,x", "2", "3,y,z", "4,w"]
      [JVal.obj [("a", JVal.num ⟨"1"⟩), ("b", JVal.str "x")],
        JVal.obj [("a", JVal.num ⟨"4"⟩), ("b", JVal.str "w")]] []
      (fun _ _ => rfl) rfl⟩

/-! ## Claims on the accumulator of `importCsvData` -/

theorem fullChunks_succ (B k : Nat) (rs : List JVal) :
    fullChunks B (k + 1) rs = rs.take B :: fullChunks B k (rs.drop B) := by
  unfold fullChunks
  rw [List.range_succ_eq_map, List.map_cons, List.map_map]
  simp only [Nat.zero_mul, List.drop_zero, List.cons.injEq, true_and]
  apply List.map_congr_left
  intro i _
  simp only [Function.comp, List.drop_drop]
  congr 2
  rw [Nat.succ_mul]
  ring

theorem fullChunks_lengths (B k : Nat) :
    ∀ rs : List JVal, k * B ≤ rs.length →
      (fullChunks B k rs).map List.length = List.replicate k B := by
  induction k with
  | zero => intro rs _; simp [fullChunks]
  | succ k ih =>
    intro rs h
    have hB : B ≤ rs.length := by
      have : B ≤ (k + 1) * B := Nat.le_mul_of_pos_left B (Nat.succ_pos k)
      omega
    have hk : k * B ≤ (rs.drop B).length := by
      rw [List.length_drop]
      have : (k + 1) * B = k * B + B := by ring
      omega
    rw [fullChunks_succ, List.map_cons, ih _ hk, List.replicate_succ, List.length_take]
    simp [hB]

theorem fullChunks_flatten (B k : Nat) :
    ∀ rs : List JVal, (fullChunks B k rs).flatten ++ rs.drop (k * B) = rs := by
  induction k with
  | zero => intro rs; simp [fullChunks]
  | succ k ih =>
    intro rs
    have h := ih (rs.drop B)
    rw [List.drop_drop] at h
    rw [fullChunks_succ, List.flatten_cons, List.append_assoc]
    have e : (k + 1) * B = B + k * B := by ring
    rw [e, h, List.take_append_drop]

theorem onDataCallback_never_fails {ω : Type} (B : Nat)
    (insertBatch : List JVal → ω → ω × Res Unit)
    (hw : ∀ b x, (insertBatch b x).2 = Res.ok ()) (r : JVal) (st : ImportState ω) :
    (onDataCallback B insertBatch r st).2 = Res.ok () := by
  unfold onDataCallback
  have hp : insertBatch (st.batch ++ [r]) st.world =
      ((insertBatch (st.batch ++ [r]) st.world).1, Res.ok ()) := by
    rw [← hw (st.batch ++ [r]) st.world]
  by_cases h : (st.batch ++ [r]).length ≥ B
  · simp only [h, if_true]
    rw [hp]
  · simp only [h, if_false]

theorem onDataCallback_state {ω : Type} (B : Nat)
    (insertBatch : List JVal → ω → ω × Res Unit)
    (hw : ∀ b x, (insertBatch b x).2 = Res.ok ()) (r : JVal) (st : ImportState ω) :
    (onDataCallback B insertBatch r st).1 =
      if (st.batch ++ [r]).length ≥ B then ⟨[], (insertBatch (st.batch ++ [r]) st.world).1⟩
      else ⟨st.batch ++ [r], st.world⟩ := by
  unfold onDataCallback
  have hp : insertBatch (st.batch ++ [r]) st.world =
      ((insertBatch (st.batch ++ [r]) st.world).1, Res.ok ()) := by
    rw [← hw (st.batch ++ [r]) st.world]
  by_cases h : (st.batch ++ [r]).length ≥ B
  · simp only [h, if_true]
    rw [hp]
  · simp only [h, if_false]

theorem fold_fill {ω : Type} (B : Nat) (insertBatch : List JVal → ω → ω × Res Unit)
    (hw : ∀ b x, (insertBatch b x).2 = Res.ok ()) (xs : List JVal) :
    ∀ (buf : List JVal) (w : ω), buf.length + xs.length < B →
      xs.foldl (fun st r => (onDataCallback B insertBatch r st).1) ⟨buf, w⟩ =
        ⟨buf ++ xs, w⟩ := by
  induction xs with
  | nil => intro buf w _; simp
  | cons x xs ih =>
    intro buf w h
    simp only [List.length_cons] at h
    have hlt : ¬ (buf ++ [x]).length ≥ B := by
      simp only [List.length_append, List.length_singleton]; omega
    rw [List.foldl_cons, onDataCallback_state B insertBatch hw]
    simp only [hlt, if_false]
    rw [ih (buf ++ [x]) w (by simp only [List.length_append, List.length_singleton]; omega)]
    simp

theorem fold_flush {ω : Type} (B : Nat) (insertBatch : List JVal → ω → ω × Res Unit)
    (hw : ∀ b x, (insertBatch b x).2 = Res.ok ()) (xs : List JVal) :
    ∀ (buf : List JVal) (w : ω), xs ≠ [] → buf.length + xs.length = B →
      xs.foldl (fun st r => (onDataCallback B insertBatch r st).1) ⟨buf, w⟩ =
        ⟨[], (insertBatch (buf ++ xs) w).1⟩ := by
  induction xs with
  | nil => intro buf w h; exact absurd rfl h
  | cons x xs ih =>
    intro buf w _ h
    rw [List.foldl_cons, onDataCallback_state B insertBatch hw]
    cases xs with
    | nil =>
      simp only [List.length_cons, List.length_nil] at h
      have hge : (buf ++ [x]).length ≥ B := by
        simp only [List.length_append, List.length_singleton]; omega
      rw [if_pos hge]
      rfl
    | cons y ys =>
      simp only [List.length_cons] at h
      have hlt : ¬ (buf ++ [x]).length ≥ B := by
        simp only [List.length_append, List.length_singleton]; omega
      rw [if_neg hlt]
      have hsum : (buf ++ [x]).length + (y :: ys).length = B := by
        simp only [List.length_append, List.length_cons, List.length_nil]; omega
      rw [ih (buf ++ [x]) w (by simp) hsum]
      simp

theorem fold_chunks {ω : Type} (B : Nat) (hB : 1 ≤ B)
    (insertBatch : List JVal → ω → ω × Res Unit)
    (hw : ∀ b x, (insertBatch b x).2 = Res.ok ()) (k : Nat) :
    ∀ (rs : List JVal) (w : ω), k * B ≤ rs.length → rs.length < (k + 1) * B →
      rs.foldl (fun st r => (onDataCallback B insertBatch r st).1) ⟨[], w⟩ =
        ⟨rs.drop (k * B), (fullChunks B k rs).foldl (fun x b => (insertBatch b x).1) w⟩ := by
  induction k with
  | zero =>
    intro rs w _ h2
    have := fold_fill B insertBatch hw rs [] w (by simpa using h2)
    simpa [fullChunks] using this
  | succ k ih =>
    intro rs w h1 h2
    have e1 : (k + 1) * B = k * B + B := by ring
    have e2 : (k + 1 + 1) * B = k * B + B + B := by ring
    have hBle : B ≤ rs.length := by omega
    have htake : (rs.take B).length = B := by simp [List.length_take, hBle]
    have hne : rs.take B ≠ [] := by
      intro e
      rw [e] at htake
      simp at htake
      omega
    have hsplit : rs = rs.take B ++ rs.drop B := (List.take_append_drop B rs).symm
    have hfl := fold_flush B insertBatch hw (rs.take B) [] w hne (by simpa using htake)
    have hrec := ih (rs.drop B) (insertBatch (rs.take B) w).1
      (by rw [List.length_drop]; omega) (by rw [List.length_drop]; omega)
    rw [List.drop_drop] at hrec
    have e3 : (k + 1) * B = B + k * B := by ring
    rw [fullChunks_succ, List.foldl_cons, e3, ← hrec]
    conv_lhs => rw [hsplit]
    rw [List.foldl_append, hfl]
    simp

theorem batchesOf_length (B : Nat) (hB : 1 ≤ B) (rs : List JVal) :
    (batchesOf B rs).length = (rs.length + B - 1) / B := by
  have hd := Nat.div_add_mod rs.length B
  have hm := Nat.mod_lt rs.length (show 0 < B by omega)
  have hlen : (batchesOf B rs).length =
      rs.length / B + (if rs.length % B = 0 then 0 else 1) := by
    unfold batchesOf fullChunks
    split <;> simp
  rw [hlen]
  symm
  by_cases h0 : rs.length % B = 0
  · simp only [h0, if_true, Nat.add_zero]
    have e : rs.length + B - 1 = (B - 1) + B * (rs.length / B) := by
      rw [h0] at hd; omega
    rw [e, Nat.add_mul_div_left _ _ (show 0 < B by omega), Nat.div_eq_of_lt (by omega)]
    omega
  · simp only [h0, if_false]
    have e : rs.length + B - 1 = (rs.length % B - 1) + B * (rs.length / B + 1) := by
      have : B * (rs.length / B + 1) = B * (rs.length / B) + B := by ring
      omega
    rw [e, Nat.add_mul_div_left _ _ (show 0 < B by omega), Nat.div_eq_of_lt (by omega)]
    omega

theorem batchesOf_sizes (B : Nat) (rs : List JVal) :
    (batchesOf B rs).map List.length =
      List.replicate (rs.length / B) B ++
        (if rs.length % B = 0 then [] else [rs.length % B]) := by
  have hd := Nat.div_add_mod rs.length B
  have hle : rs.length / B * B ≤ rs.length := Nat.div_mul_le_self _ _
  unfold batchesOf
  rw [List.map_append, fullChunks_lengths B _ rs hle]
  congr 1
  split
  · rfl
  · simp only [List.map_cons, List.map_nil, List.length_drop, List.cons.injEq, and_true]
    have : B * (rs.length / B) = rs.length / B * B := Nat.mul_comm _ _
    omega

theorem batchesOf_flatten (B : Nat) (rs : List JVal) : (batchesOf B rs).flatten = rs := by
  have hd := Nat.div_add_mod rs.length B
  have h := fullChunks_flatten B (rs.length / B) rs
  unfold batchesOf
  rw [List.flatten_append]
  split
  · rename_i h0
    have hlen : (rs.drop (rs.length / B * B)).length = 0 := by
      rw [List.length_drop]
      have : B * (rs.length / B) = rs.length / B * B := Nat.mul_comm _ _
      omega
    rw [List.length_eq_zero] at hlen
    rw [hlen] at h
    simpa using h
  · simpa using h

theorem importCsvData_fold_batches {ω : Type} (B : Nat) (hB : 1 ≤ B)
    (truncate : ω → ω × Option JsError) (insertBatch : List JVal → ω → ω × Res Unit)
    (toNumber : String → JNum) (runtime : Runtime) (path : String)
    (header : String) (dataLines : List String)
    (records : List JVal) (w w1 : ω)
    (htr : truncate w = (w1, none))
    (hw : ∀ b x, (insertBatch b x).2 = Res.ok ())
    (hb : (matchingLines header dataLines).map
        (fun line => buildNestedObject toNumber (split header ',') (split line ',')) =
      records.map Res.ok) :
    importCsvData B truncate insertBatch toNumber runtime (some path)
        ⟨header :: dataLines, none⟩ w =
      (⟨[], (batchesOf B records).foldl (fun x b => (insertBatch b x).1) w1⟩,
        Res.ok ⟨true, "Import complete.", none⟩) := by
  have hproc := processCSV_fold toNumber runtime path (onDataCallback B insertBatch)
    (onDataCallback_never_fails B insertBatch hw) header dataLines records ⟨[], w1⟩ hb
  have hd := Nat.div_add_mod records.length B
  have hm := Nat.mod_lt records.length (show 0 < B by omega)
  have hc : B * (records.length / B) = records.length / B * B := Nat.mul_comm _ _
  have hs : (records.length / B + 1) * B = records.length / B * B + B := by ring
  have hfold := fold_chunks B hB insertBatch hw (records.length / B) records w1
    (by omega) (by omega)
  have hlen : (records.drop (records.length / B * B)).length = records.length % B := by
    rw [List.length_drop]; omega
  unfold importCsvData
  simp only [htr]
  rw [hproc, hfold]
  by_cases h0 : records.length % B = 0
  · have hnil : records.drop (records.length / B * B) = [] := by
      rw [← List.length_eq_zero, hlen, h0]
    simp [batchesOf, h0, hnil]
  · have hpos : (records.drop (records.length / B * B)).length > 0 := by
      rw [hlen]; omega
    have hp := hw (records.drop (records.length / B * B))
      ((fullChunks B (records.length / B) records).foldl (fun x b => (insertBatch b x).1) w1)
    simp only [hpos, if_true]
    generalize hq : insertBatch (records.drop (records.length / B * B))
      ((fullChunks B (records.length / B) records).foldl (fun x b => (insertBatch b x).1) w1) = q
      at hp
    obtain ⟨q1, q2⟩ := q
    simp only at hp
    subst hp
    simp [batchesOf, h0, List.foldl_append, hq]

/-- C2: for every batch threshold `B ≥ 1`, a truncate that succeeds, a writer that succeeds
on every batch, and a file (at a configured path) whose stream delivers the records `rs`
(`n` of them): the import
reports success with an empty buffer, and the writer has been run, in this order, on
exactly the batches `batchesOf B rs` (so with the recording writer the recorded batches are
that list); these are `⌈n/B⌉` batches, `⌊n/B⌋` of `B` records followed by one of `n mod B`
records when that is not zero, and their concatenation is `rs`. -/
theorem importCsvData_batches {ω : Type} (B : Nat) (truncate : ω → ω × Option JsError)
    (insertBatch : List JVal → ω → ω × Res Unit) (toNumber : String → JNum)
    (runtime : Runtime) (path : String)
    (header : String) (dataLines : List String) (records : List JVal) (w w1 : ω)
    (hB : 1 ≤ B)
    (htr : truncate w = (w1, none))
    (hw : ∀ b x, (insertBatch b x).2 = Res.ok ())
    (hb : (dataLines.filter fun line =>
          decide ((split line ',').length = (split header ',').length)).map
        (fun line => buildNestedObject toNumber (split header ',') (split line ',')) =
      records.map Res.ok) :
    importCsvData B truncate insertBatch toNumber runtime (some path)
        ⟨header :: dataLines, none⟩ w =
      (⟨[], (batchesOf B records).foldl (fun x b => (insertBatch b x).1) w1⟩,
        Res.ok ⟨true, "Import complete.", none⟩) ∧
    importCsvData B (fun x => (x, none)) recordWriter toNumber runtime (some path)
        ⟨header :: dataLines, none⟩ [] =
      (⟨[], batchesOf B records⟩, Res.ok ⟨true, "Import complete.", none⟩) ∧
    (batchesOf B records).length = (records.length + B - 1) / B ∧
    (batchesOf B records).map List.length =
      List.replicate (records.length / B) B ++
        (if records.length % B = 0 then [] else [records.length % B]) ∧
    (batchesOf B records).flatten = records := by
  refine ⟨importCsvData_fold_batches B hB truncate insertBatch toNumber runtime path header
      dataLines records w w1 htr hw hb, ?_, batchesOf_length B hB records,
    batchesOf_sizes B records, batchesOf_flatten B records⟩
  have h := importCsvData_fold_batches B hB (fun x => (x, none)) recordWriter toNumber runtime
    path header dataLines records [] [] rfl (fun _ _ => rfl) hb
  rw [h]
  have hrec : ∀ (bs acc : List (List JVal)),
      bs.foldl (fun x b => (recordWriter b x).1) acc = acc ++ bs := by
    intro bs
    induction bs with
    | nil => intro acc; simp
    | cons b bs ih =>
      intro acc
      rw [List.foldl_cons, ih]
      simp [recordWriter]
  rw [hrec]
  simp

theorem importCsvData_batches_witness :
    1 ≤ 2 ∧
    importCsvData 2 (fun x => (x, none)) recordWriter decimalNumber refusingRuntime
        (some "users.csv") ⟨["n", "1", "2", "3", "4", "5"], none⟩ [] =
      (⟨[], [[JVal.obj [("n", JVal.num ⟨"1"⟩)], JVal.obj [("n", JVal.num ⟨"2"⟩)]],
          [JVal.obj [("n", JVal.num ⟨"3"⟩)], JVal.obj [("n", JVal.num ⟨"4"⟩)]],
          [JVal.obj [("n", JVal.num ⟨"5"⟩)]]]⟩,
        Res.ok ⟨true, "Import complete.", none⟩) :=
  ⟨by decide,
    (importCsvData_batches 2 (fun x => (x, none)) recordWriter decimalNumber refusingRuntime
      "users.csv" "n" ["1", "2", "3", "4", "5"]
      [JVal.obj [("n", JVal.num ⟨"1"⟩)], JVal.obj [("n", JVal.num ⟨"2"⟩)],
        JVal.obj [("n", JVal.num ⟨"3"⟩)], JVal.obj [("n", JVal.num ⟨"4"⟩)],
        JVal.obj [("n", JVal.num ⟨"5"⟩)]] [] [] (by decide) rfl (fun _ _ => rfl) rfl).1⟩

/-! ## Claims on `insertUsersBatch` and the failure paths of `importCsvData` -/

/-- C3, as stated, fails: when the connection is lost during the batch `INSERT`, the
`INSERT` rejects with `insert failed`, the `ROLLBACK` issued in the `catch` block rejects
with `connection lost`, and `insertUsersBatch` throws the latter, not the error that
caused the failure. -/
theorem insertUsersBatch_throws_rollback_error :
    connectionLostDb.clientQuery (insertText 1)
        [JVal.str "Jane Doe", JVal.num ⟨"30"⟩, JVal.null, JVal.obj []] () =
      ((), some ⟨"Error", "insert failed"⟩) ∧
    insertUsersBatch connectionLostDb [janeRecord] ⟨(), []⟩ =
      (⟨(), [Call.connect, Call.clientQuery "BEGIN", Call.clientQuery (insertText 1),
          Call.clientQuery "ROLLBACK", Call.release]⟩,
        Res.throw ⟨"Error", "connection lost"⟩) ∧
    (⟨"Error", "connection lost"⟩ : JsError) ≠ ⟨"Error", "insert failed"⟩ := by
  refine ⟨rfl, rfl, ?_⟩
  decide

/-- C3 (amended): when the records of a non-empty batch all transform, the connection and
`BEGIN` succeed, the batch `INSERT` rejects with `e` and the `ROLLBACK` itself succeeds,
`insertUsersBatch` issues on that one client exactly `BEGIN`, the `INSERT`, `ROLLBACK` (no
`COMMIT`), releases the client and throws the same `e`; and a call of `onDataCallback`
whose flush is this one throws the same `e` and leaves the buffer holding exactly the
records handed to the flush. -/
theorem insertUsersBatch_rollback {ω : Type} (db : Db ω) (batch : List JVal)
    (rows : List Row) (w : World ω) (s1 s2 s3 s4 : ω) (e : JsError)
    (hne : batch ≠ [])
    (hrows : mapTransform batch = Res.ok rows)
    (hc : db.connect w.store = (s1, none))
    (hbegin : db.clientQuery "BEGIN" [] s1 = (s2, none))
    (hins : db.clientQuery (insertText rows.length) (flattenedValues rows) s2 = (s3, some e))
    (hroll : db.clientQuery "ROLLBACK" [] s3 = (s4, none)) :
    insertUsersBatch db batch w =
      (⟨db.release s4, w.calls ++ [Call.connect, Call.clientQuery "BEGIN",
          Call.clientQuery (insertText rows.length), Call.clientQuery "ROLLBACK",
          Call.release]⟩, Res.throw e) ∧
    ∀ (B : Nat) (buffer : List JVal) (r : JVal), buffer ++ [r] = batch → B ≤ batch.length →
      onDataCallback B (insertUsersBatch db) r ⟨buffer, w⟩ =
        (⟨batch, ⟨db.release s4, w.calls ++ [Call.connect, Call.clientQuery "BEGIN",
          Call.clientQuery (insertText rows.length), Call.clientQuery "ROLLBACK",
          Call.release]⟩⟩, Res.throw e) := by
  have hlen : ¬ batch.length = 0 := by
    intro h
    exact hne (List.length_eq_zero.mp h)
  have main : insertUsersBatch db batch w =
      (⟨db.release s4, w.calls ++ [Call.connect, Call.clientQuery "BEGIN",
          Call.clientQuery (insertText rows.length), Call.clientQuery "ROLLBACK",
          Call.release]⟩, Res.throw e) := by
    simp [insertUsersBatch, hlen, hrows, hc, tryBlock, clientCall, hbegin, hins, hroll]
  refine ⟨main, ?_⟩
  intro B buffer r hbuf hB
  subst hbuf
  have hge : (buffer ++ [r]).length ≥ B := hB
  simp only [onDataCallback, hge, if_true, main]

theorem insertUsersBatch_rollback_witness :
    [janeRecord] ≠ [] ∧
    mapTransform [janeRecord] = Res.ok [⟨"Jane Doe", JVal.num ⟨"30"⟩, JVal.null, JVal.obj []⟩] ∧
    insertUsersBatch insertFailsDb [janeRecord] ⟨(), []⟩ =
      (⟨(), [Call.connect, Call.clientQuery "BEGIN", Call.clientQuery (insertText 1),
          Call.clientQuery "ROLLBACK", Call.release]⟩,
        Res.throw ⟨"Error", "insert failed"⟩) :=
  ⟨by simp, rfl,
    (insertUsersBatch_rollback insertFailsDb [janeRecord]
      [⟨"Jane Doe", JVal.num ⟨"30"⟩, JVal.null, JVal.obj []⟩] ⟨(), []⟩ () () () ()
      ⟨"Error", "insert failed"⟩ (by simp) rfl rfl rfl rfl rfl).1⟩

theorem Res.bind_settles {α β : Type} (r : Res α) (f : α → Res β)
    (hr : r.settles = true) (hf : ∀ a, (f a).settles = true) : (r.bind f).settles = true := by
  cases r with
  | ok a => exact hf a
  | throw e => rfl
  | host => simp [Res.settles] at hr
  | pending => simp [Res.settles] at hr

theorem Res.bind_not_pending {α β : Type} (r : Res α) (f : α → Res β)
    (hr : r ≠ Res.pending) (hf : ∀ a, f a ≠ Res.pending) : r.bind f ≠ Res.pending := by
  cases r with
  | ok a => exact hf a
  | throw e => intro h; cases h
  | host => intro h; cases h
  | pending => exact absurd rfl hr

theorem getProp_not_pending (v : JVal) (key : String) : getProp v key ≠ Res.pending := by
  cases v with
  | undefined => intro h; cases h
  | null => intro h; cases h
  | str s =>
    simp only [getProp, getStringProp]
    split
    · intro h; cases h
    · split
      · intro h; cases h
      · split
        · intro h; cases h
        · split <;> (intro h; cases h)
  | num n =>
    simp only [getProp]
    split <;> (intro h; cases h)
  | obj fields =>
    simp only [getProp]
    split
    · intro h; cases h
    · split <;> (intro h; cases h)

theorem setProp_not_pending (cur : JVal) (key : String) (v : JVal) :
    setProp cur key v ≠ Res.pending := by
  cases cur with
  | undefined => intro h; cases h
  | null => intro h; cases h
  | str s => intro h; cases h
  | num n => intro h; cases h
  | obj fields =>
    simp only [setProp]
    split
    · split <;> (intro h; cases h)
    · intro h; cases h

theorem setNestedProperty_not_pending (p : List String) :
    ∀ (cur v : JVal), setNestedProperty cur p v ≠ Res.pending := by
  induction p with
  | nil => intro cur v; exact setProp_not_pending cur "undefined" v
  | cons k rest ih =>
    intro cur v
    cases rest with
    | nil => exact setProp_not_pending cur k v
    | cons k2 rest2 =>
      simp only [setNestedProperty]
      apply Res.bind_not_pending _ _ (getProp_not_pending cur k)
      intro c
      apply Res.bind_not_pending
      · split
        · intro h; cases h
        · exact setProp_not_pending cur k _
      · intro cur1
        apply Res.bind_not_pending _ _ (getProp_not_pending cur1 k)
        intro child
        apply Res.bind_not_pending _ _ (ih child v)
        intro child1 h
        cases h

theorem buildLoop_not_pending (toNumber : String → JNum) (hs : List String) :
    ∀ (o : JVal) (vs : List String), buildLoop toNumber o hs vs ≠ Res.pending := by
  induction hs with
  | nil => intro o vs h; simp [buildLoop] at h
  | cons h hs2 ih =>
    intro o vs
    simp only [buildLoop]
    apply Res.bind_not_pending _ _ (setNestedProperty_not_pending _ _ _)
    intro o2
    exact ih o2 vs.tail

theorem buildInLoop_settles (toNumber : String → JNum) (runtime : Runtime)
    (headers data : List String) (remaining : Nat) :
    (buildInLoop toNumber runtime headers data remaining).settles = true := by
  have hnp := buildLoop_not_pending toNumber headers (JVal.obj []) data
  unfold buildInLoop
  cases hb : buildNestedObject toNumber headers data with
  | ok o => rfl
  | throw e => rfl
  | host =>
    cases runtime headers data remaining with
    | ok o => rfl
    | error e => rfl
  | pending => exact absurd hb hnp

theorem processLoop_settles {σ : Type} (toNumber : String → JNum) (runtime : Runtime)
    (onData : JVal → σ → σ × Res Unit) (hs : ∀ r s, (onData r s).2.settles = true)
    (lines : List String) :
    ∀ (headers : List String) (isFirstLine : Bool) (s : σ),
      (processLoop toNumber runtime onData lines headers isFirstLine s).2.settles = true := by
  induction lines with
  | nil => intro headers isFirstLine s; rfl
  | cons line rest ih =>
    intro headers isFirstLine s
    cases isFirstLine with
    | true => simpa [processLoop] using ih (split line ',') false s
    | false =>
      by_cases hlen : (split line ',').length = headers.length
      · have hb := buildInLoop_settles toNumber runtime headers (split line ',') rest.length
        simp only [processLoop, hlen]
        cases hbuild : buildInLoop toNumber runtime headers (split line ',') rest.length with
        | ok o =>
          have ho := hs o s
          rcases hq : onData o s with ⟨s1, _ | e | _ | _⟩
          · simpa [hq] using ih headers false s1
          · simp [hq, Res.settles]
          · rw [hq] at ho; simp [Res.settles] at ho
          · rw [hq] at ho; simp [Res.settles] at ho
        | throw e => simp [Res.settles]
        | host => rw [hbuild] at hb; simp [Res.settles] at hb
        | pending => rw [hbuild] at hb; simp [Res.settles] at hb
      · simpa [processLoop, hlen] using ih headers false s

theorem processCSV_settles {σ : Type} (toNumber : String → JNum) (runtime : Runtime)
    (path : String) (file : CsvFile) (onData : JVal → σ → σ × Res Unit)
    (hs : ∀ r s, (onData r s).2.settles = true) (s : σ) :
    (processCSV toNumber runtime (some path) file onData s).2.settles = true := by
  have h := processLoop_settles toNumber runtime onData hs file.lines [] true s
  unfold processCSV
  rcases hq : processLoop toNumber runtime onData file.lines [] true s with ⟨s1, _ | e | _ | _⟩
  · cases file.failure <;> rfl
  · rfl
  · rw [hq] at h; simp [Res.settles] at h
  · rw [hq] at h; simp [Res.settles] at h

theorem onDataCallback_settles {ω : Type} (B : Nat)
    (insertBatch : List JVal → ω → ω × Res Unit)
    (hw : ∀ b x, (insertBatch b x).2.settles = true) (r : JVal) (st : ImportState ω) :
    (onDataCallback B insertBatch r st).2.settles = true := by
  unfold onDataCallback
  have h := hw (st.batch ++ [r]) st.world
  by_cases hge : (st.batch ++ [r]).length ≥ B
  · simp only [hge, if_true]
    rcases hq : insertBatch (st.batch ++ [r]) st.world with ⟨w, _ | e | _ | _⟩
    · rfl
    · rfl
    · rw [hq] at h; simp [Res.settles] at h
    · rw [hq] at h; simp [Res.settles] at h
  · simp only [hge, if_false]
    rfl

theorem getProp_settles (v : JVal) (key : String)
    (h1 : key ∉ stringProtoKeys) (h2 : key ∉ numberProtoKeys) (h3 : key ∉ objectProtoKeys)
    (h4 : key ≠ "length") (h5 : canonicalIndex key = none) :
    (getProp v key).settles = true := by
  cases v with
  | undefined => rfl
  | null => rfl
  | str s => simp [getProp, getStringProp, h1, h4, h5, Res.settles]
  | num n => simp [getProp, h2, Res.settles]
  | obj fields =>
    simp only [getProp]
    split
    · rfl
    · simp [h3, Res.settles]

theorem toStr_settles (v : JVal) : (toStr v).settles = true := by
  cases v with
  | undefined => rfl
  | null => rfl
  | str s => rfl
  | num n => rfl
  | obj fields =>
    simp only [toStr]
    split <;> rfl

theorem transformForDb_settles (r : JVal) : (transformForDb r).settles = true := by
  unfold transformForDb
  apply Res.bind_settles _ _
    (getProp_settles r "name" (by decide) (by decide) (by decide) (by decide) (by decide))
  intro nm
  apply Res.bind_settles _ _
    (getProp_settles nm "firstName" (by decide) (by decide) (by decide) (by decide) (by decide))
  intro f
  apply Res.bind_settles _ _ (toStr_settles f)
  intro first
  apply Res.bind_settles _ _
    (getProp_settles nm "lastName" (by decide) (by decide) (by decide) (by decide) (by decide))
  intro l
  apply Res.bind_settles _ _ (toStr_settles l)
  intro last
  apply Res.bind_settles _ _
    (getProp_settles r "age" (by decide) (by decide) (by decide) (by decide) (by decide))
  intro age
  apply Res.bind_settles _ _
    (getProp_settles r "address" (by decide) (by decide) (by decide) (by decide) (by decide))
  intro addr
  rfl

theorem mapTransform_settles (rs : List JVal) : (mapTransform rs).settles = true := by
  induction rs with
  | nil => rfl
  | cons r rest ih =>
    simp only [mapTransform]
    apply Res.bind_settles _ _ (transformForDb_settles r)
    intro row
    apply Res.bind_settles _ _ ih
    intro rows
    rfl

/-- `insertUsersBatch` returns or throws on every batch and every store. -/
theorem insertUsersBatch_settles {ω : Type} (db : Db ω) (b : List JVal) (w : World ω) :
    (insertUsersBatch db b w).2.settles = true := by
  have hm := mapTransform_settles b
  unfold insertUsersBatch
  by_cases h0 : b.length = 0
  · simp only [h0, if_true]
    rfl
  · simp only [h0, if_false]
    cases hq : mapTransform b with
    | throw e => rfl
    | host => rw [hq] at hm; simp [Res.settles] at hm
    | pending => rw [hq] at hm; simp [Res.settles] at hm
    | ok rows =>
      simp only
      rcases db.connect w.store with ⟨s1, _ | err⟩
      · simp only
        rcases tryBlock db rows ⟨s1, w.calls ++ [Call.connect]⟩ with ⟨w1, _ | err⟩
        · rfl
        · simp only
          rcases clientCall db "ROLLBACK" [] w1 with ⟨w2, _ | err2⟩ <;> rfl
      · rfl

/-- C4, as stated, fails: when the environment does not set `CSV_FILE_PATH`, the path
`config.csv.filePath` is `undefined`, `path.resolve` throws inside the `async` executor of
`processCSV` before the `try` block, the promise is never resolved nor rejected, and
`importCsvData`, which awaits it after the truncate, returns no result at all: neither
the failure object nor the success object. -/
theorem importCsvData_pending_without_path :
    importCsvData 1000 (truncateUsers insertFailsDb) (insertUsersBatch insertFailsDb)
        decimalNumber refusingRuntime none fiveRows ⟨(), []⟩ =
      (⟨[], ⟨(), [Call.poolQuery "TRUNCATE TABLE public.users"]⟩⟩, Res.pending) := rfl

/-- C4 (amended): when the CSV path is configured and every call of the batch writer
returns or throws, `importCsvData` returns an object and never throws. The object is
`{success: true, message: 'Import complete.'}` or
`{success: false, message: 'Import failed.', error: e.message}`. It is the failure object
of `e` if the truncate rejects with `e`, or `processCSV` rejects with `e` (a stream error,
a record that cannot be built, or a flush that failed inside the handler), or the final
flush throws `e`; and `success` is `true` exactly when the truncate resolved, `processCSV`
resolved and the final flush, if one was due, resolved. -/
theorem importCsvData_never_throws {ω : Type} (B : Nat) (truncate : ω → ω × Option JsError)
    (insertBatch : List JVal → ω → ω × Res Unit) (toNumber : String → JNum)
    (runtime : Runtime) (path : String) (file : CsvFile) (w : ω)
    (hw : ∀ b x, (insertBatch b x).2.settles = true) :
    (∃ res, (importCsvData B truncate insertBatch toNumber runtime (some path) file w).2 =
        Res.ok res ∧
      (res = ⟨true, "Import complete.", none⟩ ∨
        ∃ e : JsError, res = ⟨false, "Import failed.", some e.message⟩)) ∧
    (∀ e, (importCsvData B truncate insertBatch toNumber runtime (some path) file w).2 ≠
      Res.throw e) ∧
    (∀ w1 e, truncate w = (w1, some e) →
      (importCsvData B truncate insertBatch toNumber runtime (some path) file w).2 =
        Res.ok ⟨false, "Import failed.", some e.message⟩) ∧
    (∀ w1 st e, truncate w = (w1, none) →
      processCSV toNumber runtime (some path) file (onDataCallback B insertBatch) ⟨[], w1⟩ =
        (st, Res.throw e) →
      (importCsvData B truncate insertBatch toNumber runtime (some path) file w).2 =
        Res.ok ⟨false, "Import failed.", some e.message⟩) ∧
    (∀ w1 st w2 e, truncate w = (w1, none) →
      processCSV toNumber runtime (some path) file (onDataCallback B insertBatch) ⟨[], w1⟩ =
        (st, Res.ok ()) →
      st.batch.length > 0 → insertBatch st.batch st.world = (w2, Res.throw e) →
      (importCsvData B truncate insertBatch toNumber runtime (some path) file w).2 =
        Res.ok ⟨false, "Import failed.", some e.message⟩) ∧
    ((∃ r, (importCsvData B truncate insertBatch toNumber runtime (some path) file w).2 =
          Res.ok r ∧ r.success = true) ↔
      ∃ w1 st, truncate w = (w1, none) ∧
        processCSV toNumber runtime (some path) file (onDataCallback B insertBatch) ⟨[], w1⟩ =
          (st, Res.ok ()) ∧
        (st.batch.length > 0 → ∃ w2, insertBatch st.batch st.world = (w2, Res.ok ()))) := by
  rcases htr : truncate w with ⟨w1, _ | e0⟩
  · have hps := processCSV_settles toNumber runtime path file (onDataCallback B insertBatch)
      (onDataCallback_settles B insertBatch hw) ⟨[], w1⟩
    rcases hp : processCSV toNumber runtime (some path) file (onDataCallback B insertBatch)
        ⟨[], w1⟩ with ⟨st, _ | e1 | _ | _⟩
    · by_cases hlen : st.batch.length > 0
      · have his := hw st.batch st.world
        rcases hi : insertBatch st.batch st.world with ⟨w2, _ | e2 | _ | _⟩
        · simp only [importCsvData, htr, hp, hlen, hi]
          refine ⟨⟨_, rfl, Or.inl rfl⟩, ?_, ?_, ?_, ?_, ?_⟩
          · intro e h; cases h
          · intro w3 e h; cases h
          · intro w3 st3 e h1 h2; cases h1; rw [hp] at h2; cases h2
          · intro w3 st3 w4 e h1 h2 _ h4
            cases h1; rw [hp] at h2; cases h2; rw [hi] at h4; cases h4
          · constructor
            · intro _
              exact ⟨w1, st, rfl, hp, fun _ => ⟨w2, hi⟩⟩
            · intro _
              exact ⟨_, rfl, rfl⟩
        · simp only [importCsvData, htr, hp, hlen, hi]
          refine ⟨⟨_, rfl, Or.inr ⟨e2, rfl⟩⟩, ?_, ?_, ?_, ?_, ?_⟩
          · intro e h; cases h
          · intro w3 e h; cases h
          · intro w3 st3 e h1 h2; cases h1; rw [hp] at h2; cases h2
          · intro w3 st3 w4 e h1 h2 _ h4
            cases h1; rw [hp] at h2; cases h2; rw [hi] at h4; cases h4; rfl
          · constructor
            · rintro ⟨r, h1, h2⟩
              cases h1
              cases h2
            · rintro ⟨w3, st3, h1, h2, h3⟩
              exfalso
              cases h1; rw [hp] at h2; cases h2
              obtain ⟨w4, h4⟩ := h3 hlen
              rw [hi] at h4; cases h4
        · rw [hi] at his; simp [Res.settles] at his
        · rw [hi] at his; simp [Res.settles] at his
      · simp only [importCsvData, htr, hp, hlen]
        refine ⟨⟨_, rfl, Or.inl rfl⟩, ?_, ?_, ?_, ?_, ?_⟩
        · intro e h; cases h
        · intro w3 e h; cases h
        · intro w3 st3 e h1 h2; cases h1; rw [hp] at h2; cases h2
        · intro w3 st3 w4 e h1 h2 h3 _
          cases h1; rw [hp] at h2; cases h2; exact absurd h3 hlen
        · constructor
          · intro _
            exact ⟨w1, st, rfl, hp, fun h => absurd h hlen⟩
          · intro _
            exact ⟨_, rfl, rfl⟩
    · simp only [importCsvData, htr, hp]
      refine ⟨⟨_, rfl, Or.inr ⟨e1, rfl⟩⟩, ?_, ?_, ?_, ?_, ?_⟩
      · intro e h; cases h
      · intro w3 e h; cases h
      · intro w3 st3 e h1 h2; cases h1; rw [hp] at h2; cases h2; rfl
      · intro w3 st3 w4 e h1 h2 _ _
        cases h1; rw [hp] at h2; cases h2
      · constructor
        · rintro ⟨r, h1, h2⟩
          cases h1
          cases h2
        · rintro ⟨w3, st3, h1, h2, _⟩
          exfalso
          cases h1; rw [hp] at h2; cases h2
    · rw [hp] at hps; simp [Res.settles] at hps
    · rw [hp] at hps; simp [Res.settles] at hps
  · simp only [importCsvData, htr]
    refine ⟨⟨_, rfl, Or.inr ⟨e0, rfl⟩⟩, ?_, ?_, ?_, ?_, ?_⟩
    · intro e h; cases h
    · intro w3 e h; cases h; rfl
    · intro w3 st3 e h1 _; cases h1
    · intro w3 st3 w4 e h1 _ _ _; cases h1
    · constructor
      · rintro ⟨r, h1, h2⟩
        cases h1
        cases h2
      · rintro ⟨w3, st3, h1, _⟩
        cases h1

theorem importCsvData_never_throws_witness :
    (∀ b x, (insertUsersBatch secondInsertFailsDb b x).2.settles = true) ∧
    importCsvData 2 (truncateUsers secondInsertFailsDb) (insertUsersBatch secondInsertFailsDb)
        decimalNumber refusingRuntime (some "users.csv") fiveRows ⟨0, []⟩ =
      (⟨[JVal.obj [("name", JVal.obj [("firstName", JVal.str "E"), ("lastName", JVal.str "F")]),
            ("age", JVal.num ⟨"3"⟩)],
          JVal.obj [("name", JVal.obj [("firstName", JVal.str "G"), ("lastName", JVal.str "H")]),
            ("age", JVal.num ⟨"4"⟩)]],
          ⟨2, [Call.poolQuery "TRUNCATE TABLE public.users",
            Call.connect, Call.clientQuery "BEGIN", Call.clientQuery (insertText 2),
            Call.clientQuery "COMMIT", Call.release,
            Call.connect, Call.clientQuery "BEGIN", Call.clientQuery (insertText 2),
            Call.clientQuery "ROLLBACK", Call.release]⟩⟩,
        Res.ok ⟨false, "Import failed.", some "Fake DB Error"⟩) ∧
    (importCsvData 2 (truncateUsers secondInsertFailsDb) (insertUsersBatch secondInsertFailsDb)
        decimalNumber refusingRuntime (some "users.csv") fiveRows ⟨0, []⟩).2 =
      Res.ok ⟨false, "Import failed.", some "Fake DB Error"⟩ :=
  ⟨insertUsersBatch_settles secondInsertFailsDb, rfl,
    (importCsvData_never_throws 2 (truncateUsers secondInsertFailsDb)
      (insertUsersBatch secondInsertFailsDb) decimalNumber refusingRuntime "users.csv" fiveRows
      ⟨0, []⟩ (insertUsersBatch_settles secondInsertFailsDb)).2.2.2.1
      _ _ ⟨"Error", "Fake DB Error"⟩ rfl rfl⟩

/-! ## Claims on `transformForDb` -/

theorem deleteKey_three (fields : List (String × JVal)) :
    deleteKey (deleteKey (deleteKey fields "name") "age") "address" =
      fields.filter fun kv => decide (kv.1 ≠ "name" ∧ kv.1 ≠ "age" ∧ kv.1 ≠ "address") := by
  unfold deleteKey
  rw [List.filter_filter, List.filter_filter]
  congr 1
  funext kv
  by_cases h1 : kv.1 = "name" <;> by_cases h2 : kv.1 = "age" <;>
    by_cases h3 : kv.1 = "address" <;> simp [h1, h2, h3]

theorem toStr_scalar (v : JVal) (h : isScalar v = true) : toStr v = Res.ok (scalarText v) := by
  cases v with
  | str s => rfl
  | num n => rfl
  | undefined => simp [isScalar] at h
  | null => simp [isScalar] at h
  | obj fs => simp [isScalar] at h

theorem getProp_own (fields : List (String × JVal)) (key : String) (v : JVal)
    (h : findField fields key = some v) : getProp (JVal.obj fields) key = Res.ok v := by
  simp [getProp, h]

theorem getProp_absent (fields : List (String × JVal)) (key : String)
    (h : findField fields key = none) (hk : key ∉ objectProtoKeys) :
    getProp (JVal.obj fields) key = Res.ok JVal.undefined := by
  simp [getProp, h, hk]

theorem transformForDb_of_name (fields nf : List (String × JVal)) (first last : String)
    (fv lv : JVal)
    (hname : findField fields "name" = some (JVal.obj nf))
    (hf : getProp (JVal.obj nf) "firstName" = Res.ok fv) (hfs : toStr fv = Res.ok first)
    (hl : getProp (JVal.obj nf) "lastName" = Res.ok lv) (hls : toStr lv = Res.ok last) :
    ∃ row, transformForDb (JVal.obj fields) = Res.ok row ∧
      row.name = first ++ " " ++ last ∧
      (∀ a, findField fields "age" = some a → row.age = a) ∧
      (∀ sub, findField fields "address" = some (JVal.obj sub) → row.address = JVal.obj sub) ∧
      (findField fields "address" = none → row.address = JVal.null) ∧
      row.additional_info = JVal.obj (fields.filter fun kv =>
        decide (kv.1 ≠ "name" ∧ kv.1 ≠ "age" ∧ kv.1 ≠ "address")) := by
  have hage : ∃ a, getProp (JVal.obj fields) "age" = Res.ok a ∧
      ∀ b, findField fields "age" = some b → a = b := by
    cases h : findField fields "age" with
    | none => exact ⟨JVal.undefined, getProp_absent _ _ h (by decide), by simp⟩
    | some b => exact ⟨b, getProp_own _ _ _ h, by simp⟩
  have haddr : ∃ a, getProp (JVal.obj fields) "address" = Res.ok a ∧
      (∀ sub, findField fields "address" = some (JVal.obj sub) → a = JVal.obj sub) ∧
      (findField fields "address" = none → a = JVal.undefined) := by
    cases h : findField fields "address" with
    | none => exact ⟨JVal.undefined, getProp_absent _ _ h (by decide), by simp, by simp⟩
    | some b => exact ⟨b, getProp_own _ _ _ h, by simp, by simp⟩
  obtain ⟨a, ha1, ha2⟩ := hage
  obtain ⟨d, hd1, hd2, hd3⟩ := haddr
  refine ⟨⟨first ++ " " ++ last, a, if truthy d then d else JVal.null,
    JVal.obj (deleteKey (deleteKey (deleteKey (ownFields (JVal.obj fields)) "name") "age")
      "address")⟩, ?_, rfl, ?_, ?_, ?_, ?_⟩
  · simp only [transformForDb, getProp_own _ _ _ hname, Res.bind, hf, hfs, hl, hls, ha1, hd1]
  · exact ha2
  · intro sub hsub
    simp [hd2 sub hsub, truthy]
  · intro hnone
    simp [hd3 hnone, truthy]
  · simp [ownFields, deleteKey_three]

/-- C9: for every record whose `name.firstName` is the scalar `f` and whose `name.lastName`
is the scalar `l`, `transformForDb` returns a row whose `name` is the text of `f`, one
space, the text of `l`; whose `age` is the record's `age` unchanged; whose `address` is the
record's `address` sub-object, and `null` when the record has no `address`; and whose
`additional_info` is the record without exactly its top-level keys `name`, `age` and
`address`. -/
theorem transformForDb_row (fields nf : List (String × JVal)) (f l : JVal)
    (hname : findField fields "name" = some (JVal.obj nf))
    (hf : findField nf "firstName" = some f) (hl : findField nf "lastName" = some l)
    (hfs : isScalar f = true) (hls : isScalar l = true) :
    ∃ row, transformForDb (JVal.obj fields) = Res.ok row ∧
      row.name = scalarText f ++ " " ++ scalarText l ∧
      (∀ a, findField fields "age" = some a → row.age = a) ∧
      (∀ sub, findField fields "address" = some (JVal.obj sub) → row.address = JVal.obj sub) ∧
      (findField fields "address" = none → row.address = JVal.null) ∧
      row.additional_info = JVal.obj (fields.filter fun kv =>
        decide (kv.1 ≠ "name" ∧ kv.1 ≠ "age" ∧ kv.1 ≠ "address")) :=
  transformForDb_of_name fields nf (scalarText f) (scalarText l) f l hname
    (getProp_own _ _ _ hf) (toStr_scalar f hfs) (getProp_own _ _ _ hl) (toStr_scalar l hls)

theorem transformForDb_row_witness :
    buildNestedObject decimalNumber ["name.firstName", "name.lastName", "age", "gender"]
        ["Jane", "Doe", "30", "female"] =
      Res.ok (JVal.obj [("name", JVal.obj [("firstName", JVal.str "Jane"),
        ("lastName", JVal.str "Doe")]), ("age", JVal.num ⟨"30"⟩), ("gender", JVal.str "female")]) ∧
    transformForDb (JVal.obj [("name", JVal.obj [("firstName", JVal.str "Jane"),
        ("lastName", JVal.str "Doe")]), ("age", JVal.num ⟨"30"⟩), ("gender", JVal.str "female")]) =
      Res.ok ⟨"Jane Doe", JVal.num ⟨"30"⟩, JVal.null, JVal.obj [("gender", JVal.str "female")]⟩ ∧
    ∃ row, transformForDb (JVal.obj [("name", JVal.obj [("firstName", JVal.str "Jane"),
        ("lastName", JVal.str "Doe")]), ("age", JVal.num ⟨"30"⟩), ("gender", JVal.str "female")]) =
        Res.ok row ∧
      row.name = "Jane" ++ " " ++ "Doe" ∧
      (∀ a, findField [("name", JVal.obj [("firstName", JVal.str "Jane"),
        ("lastName", JVal.str "Doe")]), ("age", JVal.num ⟨"30"⟩), ("gender", JVal.str "female")]
          "age" = some a → row.age = a) ∧
      (∀ sub, findField [("name", JVal.obj [("firstName", JVal.str "Jane"),
        ("lastName", JVal.str "Doe")]), ("age", JVal.num ⟨"30"⟩), ("gender", JVal.str "female")]
          "address" = some (JVal.obj sub) → row.address = JVal.obj sub) ∧
      (findField [("name", JVal.obj [("firstName", JVal.str "Jane"),
        ("lastName", JVal.str "Doe")]), ("age", JVal.num ⟨"30"⟩), ("gender", JVal.str "female")]
          "address" = none → row.address = JVal.null) ∧
      row.additional_info = JVal.obj [("gender", JVal.str "female")] :=
  ⟨rfl, rfl,
    transformForDb_row
      [("name", JVal.obj [("firstName", JVal.str "Jane"), ("lastName", JVal.str "Doe")]),
        ("age", JVal.num ⟨"30"⟩), ("gender", JVal.str "female")]
      [("firstName", JVal.str "Jane"), ("lastName", JVal.str "Doe")]
      (JVal.str "Jane") (JVal.str "Doe") rfl rfl rfl rfl rfl⟩

/-- C10, as stated, fails: on a record with no `name` key `transformForDb` throws a
`TypeError` instead of returning a row, and a missing `firstName` contributes the text
`undefined` to the name, not an empty segment. -/
theorem transformForDb_not_total :
    transformForDb (JVal.obj [("age", JVal.num ⟨"30"⟩)]) =
      Res.throw (readTypeError "undefined" "firstName") ∧
    transformForDb (JVal.obj [("name", JVal.obj [("lastName", JVal.str "Doe")])]) =
      Res.ok ⟨"undefined Doe", JVal.undefined, JVal.null, JVal.obj []⟩ ∧
    "undefined Doe" ≠ " Doe" := by
  refine ⟨rfl, rfl, ?_⟩
  decide

/-- C10 (amended): `transformForDb` returns a row for every record whose `name` is an object
whose `firstName` and `lastName` are each absent or a scalar, and an absent sub-field
contributes the text `undefined` to the concatenated name; on a record with no `name` key
it throws a `TypeError`. -/
theorem transformForDb_name_segments (fields : List (String × JVal)) :
    (findField fields "name" = none →
      transformForDb (JVal.obj fields) = Res.throw (readTypeError "undefined" "firstName")) ∧
    (∀ nf, findField fields "name" = some (JVal.obj nf) →
      (∀ v, findField nf "firstName" = some v → isScalar v = true) →
      (∀ v, findField nf "lastName" = some v → isScalar v = true) →
      ∃ row, transformForDb (JVal.obj fields) = Res.ok row ∧
        row.name = segmentText (findField nf "firstName") ++ " " ++
          segmentText (findField nf "lastName")) := by
  constructor
  · intro h
    have hg := getProp_absent fields "name" h (by decide)
    unfold transformForDb
    rw [hg]
    rfl
  · intro nf hname hf hl
    have seg : ∀ key, key ∉ objectProtoKeys →
        (∀ v, findField nf key = some v → isScalar v = true) →
        ∃ v, getProp (JVal.obj nf) key = Res.ok v ∧
          toStr v = Res.ok (segmentText (findField nf key)) := by
      intro key hk hs
      cases h : findField nf key with
      | none => exact ⟨JVal.undefined, getProp_absent _ _ h hk, rfl⟩
      | some v => exact ⟨v, getProp_own _ _ _ h, toStr_scalar v (hs v h)⟩
    obtain ⟨fv, h1, h2⟩ := seg "firstName" (by decide) hf
    obtain ⟨lv, h3, h4⟩ := seg "lastName" (by decide) hl
    obtain ⟨row, hr, hn, _⟩ := transformForDb_of_name fields nf _ _ fv lv hname h1 h2 h3 h4
    exact ⟨row, hr, hn⟩

theorem transformForDb_name_segments_witness :
    findField [("age", JVal.num ⟨"30"⟩)] "name" = none ∧
    transformForDb (JVal.obj [("age", JVal.num ⟨"30"⟩)]) =
      Res.throw (readTypeError "undefined" "firstName") ∧
    ∃ row, transformForDb (JVal.obj [("name", JVal.obj [("lastName", JVal.str "Doe")])]) =
        Res.ok row ∧
      row.name = "undefined" ++ " " ++ "Doe" :=
  ⟨rfl, (transformForDb_name_segments [("age", JVal.num ⟨"30"⟩)]).1 rfl,
    (transformForDb_name_segments [("name", JVal.obj [("lastName", JVal.str "Doe")])]).2
      [("lastName", JVal.str "Doe")] rfl
      (fun v h => by simp [findField] at h)
      (fun v h => by
        simp [findField] at h
        subst h
        rfl)⟩

end Kelp
